import Mathlib

/-
  Verification development for pailingual-odata-model-generator.

  Shallow embedding of src/generator.ts and src/codeModel.ts.
  TypeScript values are modelled as follows: JS `string` is `String`;
  `string | number` enum values are `EnumValue`; `undefined`-able values are
  `Option`; thrown exceptions are `Except GenError`; the `Map<string, ...>`
  registry is an insertion-ordered association list; JS object references held
  by `TypeReference.type` are modelled as registry keys (the `Model` owns all
  declarations, so a key designates the JS object identity).  The recursive
  model construction is given an explicit fuel argument; running out of fuel
  yields `GenError.fuelOut`, so termination statements say the result is not
  `fuelOut`.
-/

set_option maxRecDepth 10000

namespace PailingualGen

/-! ## JS value helpers -/

/-- Enum member values: TS `string | number` (codeModel.ts:87). -/
inductive EnumValue
  | str (s : String)
  | num (n : Int)
  deriving DecidableEq, Repr

/-- JS truthiness test for a `string | number` value: `""` and `0` are falsy
(`!value` in codeModel.ts:92). -/
def jsFalsy : EnumValue → Bool
  | .str s => s = ""
  | .num n => n = 0

/-- JS loose equality `==` on `string | number` values, restricted to the
integer-literal fragment of ToNumber for the cross-type case
(codeModel.ts:94 compares `v.value == value`). -/
def jsEqValue : EnumValue → EnumValue → Bool
  | .num a, .num b => a = b
  | .str a, .str b => a = b
  | .str a, .num b => a.toInt? = some b
  | .num a, .str b => b.toInt? = some a

/-- JS `a.replace(t, r)` with one-character target and replacement: replaces
only the first occurrence (generator.ts:55 uses a non-global replace). -/
def jsReplaceFirstChar (t r : Char) : List Char → List Char
  | [] => []
  | c :: cs => if c = t then r :: cs else c :: jsReplaceFirstChar t r cs

/-- JS `a || b` for a possibly-absent string option: `undefined` and `""` are
both falsy. -/
def jsOrOptStr (o : Option String) (dflt : String) : String :=
  match o with
  | some s => if s = "" then dflt else s
  | none => dflt

/-- JS `a || b` for a string: `""` is falsy. -/
def jsOrStr (s dflt : String) : String :=
  if s = "" then dflt else s

/-- JS `[..].filter(x => x).join(".")`: drop empty strings, then interleave
dots (generator.ts:105). -/
def joinNonEmptyDot (parts : List String) : String :=
  String.intercalate "." (parts.filter (fun s => s ≠ ""))

/-! ## Regular-expression fragment

The generator compiles filter patterns to JS regexes (generator.ts:54-57).
We model the fragment of JS regex syntax the generator actually produces for
literal patterns: a sequence of items, each either an ordinary character or
the `.` wildcard.  This interpretation is faithful for pattern strings whose
characters contain no regex metacharacter other than `.` itself. -/

/-- One compiled regex item: a plain character or the `.` wildcard. -/
inductive RChar
  | ch (c : Char)
  | anyChar
  deriving DecidableEq, Repr

/-- Does one regex item match one subject character (`i` flag modelled via
case folding when `ci` is set)? -/
def charMatch (ci : Bool) : RChar → Char → Bool
  | .anyChar, _ => true
  | .ch p, c => if ci then p.toLower = c.toLower else p = c

/-- Anchored `^...$` match: the whole subject is consumed by the item list. -/
def matchFull (ci : Bool) : List RChar → List Char → Bool
  | [], [] => true
  | [], _ :: _ => false
  | _ :: _, [] => false
  | p :: ps, c :: cs => charMatch ci p c && matchFull ci ps cs

/-- Does the item list match some leading portion of the subject? -/
def matchHere (ci : Bool) : List RChar → List Char → Bool
  | [], _ => true
  | _ :: _, [] => false
  | p :: ps, c :: cs => charMatch ci p c && matchHere ci ps cs

/-- Unanchored search, as performed by `value.match(re)` for a regex with no
anchors: try every start position. -/
def searchFrom (ci : Bool) (pat : List RChar) : List Char → Bool
  | [] => matchHere ci pat []
  | c :: cs => matchHere ci pat (c :: cs) || searchFrom ci pat cs

/-- A filter pattern: TS `string | RegExp` (generator.ts:54).  A `RegExp`
value is modelled by its compiled item list and its `i` flag. -/
inductive Pattern
  | lit (s : String)
  | regex (items : List RChar) (ignoreCase : Bool)
  deriving DecidableEq, Repr

/-- Compilation of a literal pattern exactly as generator.ts:55 performs it:
`new RegExp("^" + pattern.replace(".", "\.") + "$", "i")`.  The replacement
string `"\."` denotes the single character `.`, so the `replace` call swaps
the first `.` for itself; the resulting regex source is the raw pattern, in
which every `.` is the wildcard item. -/
def compileLit (s : String) : List RChar :=
  (jsReplaceFirstChar '.' '.' s.data).map
    (fun c => if c = '.' then RChar.anyChar else RChar.ch c)

/-- generator.ts:54-57 `isMatch(value, pattern)`: a string pattern is
compiled to an anchored case-insensitive regex; a `RegExp` pattern is used
as given, via unanchored search. -/
def isMatch (value : String) : Pattern → Bool
  | .lit s => matchFull true (compileLit s) value.data
  | .regex items ci => searchFrom ci items value.data

/-! ## Generator options and the filter -/

/-- generator.ts:7-14 `GeneratorOptions`.  The `afterBuildModel` hook is an
external collaborator and is not modelled.  Field names `includeOpt` and
`excludeOpt` stand for the source fields `include` and `exclude`; `none`
is a missing option, `some l` a present (possibly empty) pattern list. -/
structure GeneratorOptions where
  imports : List String := []
  includeOpt : Option (List Pattern) := none
  excludeOpt : Option (List Pattern) := none
  apiContextName : Option String := none
  apiContextBase : Option String := none
  deriving Repr

/-- generator.ts:50-52 `isExclude(path, options)`: some exclude pattern
matches (`options.exclude && options.exclude.some(...)`). -/
def isExclude (path : String) (options : GeneratorOptions) : Bool :=
  match options.excludeOpt with
  | none => false
  | some l => l.any (fun p => isMatch path p)

/-- generator.ts:42-48 `isIncludeObject`: the call sites pass either a
metadata object (whose full name is taken) or a path string; we take the
full name directly.  Note that a present-but-empty include list is truthy
in JS, so it rejects every name. -/
def isIncludeObject (objFullName : String) (options : GeneratorOptions) : Bool :=
  !((match options.includeOpt with
     | none => false
     | some l => !(l.any (fun p => isMatch objFullName p)))
    || isExclude objFullName options)

/-! ## Metadata shapes

The metadata object graph is produced by the external `pailingual-odata`
library; the generator consumes only qualified names (`getFullName()`),
short names (`.name`), kind discrimination (`instanceof`), and ordered
member iteration.  Cross-references between metadata types are by qualified
name, resolved through the `ApiMetadata` environment, which models JS object
aliasing in the (possibly cyclic) metadata graph. -/

/-- A reference to a named metadata type, recording its `getFullName()` and
its `.name`. -/
structure TypeNameRef where
  qname : String
  name : String
  deriving DecidableEq, Repr

/-- The `type` field of an `EdmTypeReference`: a primitive name string or a
named entity/complex/enum type. -/
inductive EdmTypeId
  | prim (s : String)
  | named (r : TypeNameRef)
  deriving DecidableEq, Repr

/-- `EdmTypeReference`: target type plus `nullable` and `collection` flags. -/
structure EdmTypeRefData where
  type : EdmTypeId
  nullable : Bool := false
  collection : Bool := false
  deriving DecidableEq, Repr

/-- Kind discrimination for named metadata types (`instanceof EdmComplexType`
or `instanceof EdmEntityType` or `instanceof EdmEnumType`). -/
inductive EdmTypeKind
  | entity
  | complex
  | enumKind
  deriving DecidableEq, Repr

/-- One named metadata type (entity, complex or enum). -/
structure EdmTypeData where
  qualifiedName : String
  name : String
  kind : EdmTypeKind
  properties : List (String × EdmTypeRefData) := []
  navProperties : List (String × EdmTypeRefData) := []
  members : List (String × EnumValue) := []
  deriving DecidableEq, Repr

/-- The `bindingTo` field of an operation: target type and whether the
binding is collection-valued. -/
structure BindingInfo where
  target : TypeNameRef
  collection : Bool := false
  deriving DecidableEq, Repr

/-- `OperationMetadata`: one action or function overload. -/
structure OperationMetadata where
  name : String
  qualifiedName : String
  isAction : Bool
  bindingTo : Option BindingInfo := none
  parameters : List (String × EdmTypeRefData) := []
  returnType : Option EdmTypeRefData := none
  deriving DecidableEq, Repr

/-- `ApiMetadata`: container name, all named types (namespaces flattened,
order preserved), entity sets, singletons, and all operations.  The empty
string models an absent `containerName`. -/
structure ApiMetadata where
  containerName : String := ""
  types : List EdmTypeData := []
  entitySets : List (String × TypeNameRef) := []
  singletons : List (String × TypeNameRef) := []
  operations : List OperationMetadata := []
  deriving Repr

/-- Resolve a qualified name to its metadata type (JS object aliasing). -/
def ApiMetadata.findType (md : ApiMetadata) (qn : String) : Option EdmTypeData :=
  md.types.find? (fun t => t.qualifiedName = qn)

/-! ## Code model (codeModel.ts) -/

def ENTITY_BASE_TYPE : String := "IEntityBase"
def COMPLEX_BASE_TYPE : String := "IComplexBase"
def API_CONTEXT_BASE_TYPE : String := "IApiContextBase"

/-- The `type` field of a `TypeReference`: a string (primitive `EdmTypes`
value or bare type name) or a reference to a declaration owned by the
model, designated by its registry key (JS object reference). -/
inductive TRTarget
  | str (s : String)
  | declKey (k : String)
  deriving DecidableEq, Repr

/-- JS truthiness of the `resType` value in generator.ts:129 `if (resType)`:
an object is truthy, a string is truthy iff non-empty. -/
def TRTarget.truthy : TRTarget → Bool
  | .str s => s ≠ ""
  | .declKey _ => true

/-- codeModel.ts:137-142 `TypeReference`. -/
structure TypeReference where
  type : TRTarget
  isArray : Bool := false
  deriving DecidableEq, Repr

/-- codeModel.ts:113-119 `PropertyDeclaration`. -/
structure PropertyDeclaration where
  name : String
  type : TypeReference
  isNullable : Bool := false
  comment : Option String := none
  deriving DecidableEq, Repr

/-- codeModel.ts:157-161 `OperationsRefDeclaration`: four optional slots. -/
structure OperationsRefDeclaration where
  functions : Option TypeReference := none
  actions : Option TypeReference := none
  entitysetActions : Option TypeReference := none
  entitysetFunctions : Option TypeReference := none
  deriving DecidableEq, Repr

/-- codeModel.ts:224-229 `MethodParameter`. The type reference is optional
because `getTypeReference` can return `undefined`. -/
structure MethodParameter where
  name : String
  typeRef : Option TypeReference
  isNullable : Bool := false
  deriving DecidableEq, Repr

/-- codeModel.ts:197-203 `MethodDeclaration`. -/
structure MethodDeclaration where
  name : String
  returnType : Option TypeReference := none
  parameters : List MethodParameter := []
  comment : Option String := none
  deriving DecidableEq, Repr

/-- codeModel.ts:21-32 `InterfaceDeclaration`.  The generator only ever
passes base classes as strings, so `baseClass` is a `String` here. -/
structure InterfaceDeclaration where
  name : String
  baseClass : String
  properties : List PropertyDeclaration := []
  navigation : List PropertyDeclaration := []
  operationsRef : Option OperationsRefDeclaration := none
  isExport : Bool := true
  comment : Option String := none
  deriving DecidableEq, Repr

/-- codeModel.ts:82-97 `EnumDeclaration` (members live in the structure). -/
structure EnumDeclaration where
  name : String
  isExport : Bool := true
  comment : Option String := none
  members : List (String × EnumValue) := []
  deriving DecidableEq, Repr

/-- codeModel.ts:182-195 `OperationsInterfaceDeclaration`. -/
structure OperationsInterfaceDeclaration where
  name : String
  isExport : Bool
  methods : List MethodDeclaration := []
  deriving DecidableEq, Repr

/-- codeModel.ts:8-19 abstract `TypeDeclaration`, as the union of its three
concrete shapes. -/
inductive TypeDeclaration
  | interfaceDecl (d : InterfaceDeclaration)
  | enumDecl (d : EnumDeclaration)
  | opInterfaceDecl (d : OperationsInterfaceDeclaration)
  deriving DecidableEq, Repr

/-- The `name` field of any declaration shape. -/
def TypeDeclaration.name : TypeDeclaration → String
  | .interfaceDecl d => d.name
  | .enumDecl d => d.name
  | .opInterfaceDecl d => d.name

/-! ### The registry (JS `Map<string, TypeDeclaration>`) -/

/-- Insertion-ordered association list standing for the private `_typeMap`. -/
abbrev TypeMap := List (String × TypeDeclaration)

/-- JS `Map.has`. -/
def mapHas (l : TypeMap) (k : String) : Bool :=
  l.any (fun kv => kv.1 = k)

/-- JS `Map.get`. -/
def mapGet (l : TypeMap) (k : String) : Option TypeDeclaration :=
  (l.find? (fun kv => kv.1 = k)).map (fun kv => kv.2)

/-- JS `Map.set`: update in place when the key exists, else append. -/
def mapSet (l : TypeMap) (k : String) (v : TypeDeclaration) : TypeMap :=
  match l with
  | [] => [(k, v)]
  | kv :: rest => if kv.1 = k then (k, v) :: rest else kv :: mapSet rest k v

/-- Number of entries under a key (1 for every present key of a JS map). -/
def countKey (l : TypeMap) (k : String) : Nat :=
  (l.filter (fun kv => kv.1 = k)).length

/-! ### Errors -/

/-- Abnormal outcomes of a generation run: a thrown JS `Error`, or fuel
exhaustion, which is an artifact of the shallow embedding (the source code
recurses without fuel; termination claims say `fuelOut` is not reached). -/
inductive GenError
  | fuelOut
  | thrown (msg : String)
  deriving DecidableEq, Repr

/-- Success projection of a fallible computation. -/
def exceptOk? {α : Type} : Except GenError α → Option α
  | .ok a => some a
  | .error _ => none

/-! ### EnumDeclaration.addMember -/

/-- Does codeModel.ts:89-97 `addMember` throw?  It does iff the name is
empty, the value is falsy, or some existing member has the same name
(strict `===`) or a loosely-equal (`==`) value. -/
def addMemberRaises (d : EnumDeclaration) (name : String) (value : EnumValue) : Bool :=
  name = "" || jsFalsy value
    || d.members.any (fun v => v.1 = name || jsEqValue v.2 value)

/-- codeModel.ts:89-97 `EnumDeclaration.addMember`: validate, then push the
pair at the end of the member list. -/
def EnumDeclaration.addMember (d : EnumDeclaration) (name : String) (value : EnumValue) :
    Except GenError EnumDeclaration :=
  if name = "" then .error (.thrown "Name must be not empty")
  else if jsFalsy value then .error (.thrown "Value must be not empty")
  else if d.members.any (fun v => v.1 = name || jsEqValue v.2 value) then
    .error (.thrown "Enum already contains member with this name or value")
  else .ok { d with members := d.members ++ [(name, value)] }

/-! ### Model -/

/-- codeModel.ts:246-307 `Model`: import list, optional api-context
declaration, and the deduplicating registry. -/
structure Model where
  imports : List String := []
  contextDeclaration : Option InterfaceDeclaration := none
  typeMap : TypeMap := []
  deriving Repr

/-- codeModel.ts:249-251 `typeDeclarations` getter: registry values in
insertion order (the truthiness filter drops nothing: objects are truthy). -/
def Model.typeDeclarations (m : Model) : List TypeDeclaration :=
  m.typeMap.map (fun kv => kv.2)

/-- The empty placeholder declaration constructed by codeModel.ts:263-266
according to the metadata kind. -/
def newDeclarationFor (edmType : EdmTypeData) : TypeDeclaration :=
  match edmType.kind with
  | .complex => .interfaceDecl { name := edmType.name, baseClass := COMPLEX_BASE_TYPE }
  | .entity => .interfaceDecl { name := edmType.name, baseClass := ENTITY_BASE_TYPE }
  | .enumKind => .enumDecl { name := edmType.name }

/-- codeModel.ts:255-271 `Model.getOrAddType`: on a registry hit return the
existing declaration without running `init`; on a miss register an empty
placeholder declaration under the qualified name first, then run `init`
(which populates the placeholder through the registry and may register
further types), then return the declaration stored under the name. -/
def Model.getOrAddType (m : Model) (edmType : EdmTypeData)
    (init : Model → Except GenError Model) :
    Except GenError (Model × TypeDeclaration) :=
  let fullName := edmType.qualifiedName
  match mapGet m.typeMap fullName with
  | some d => .ok (m, d)
  | none =>
    let declaration := newDeclarationFor edmType
    let m1 : Model := { m with typeMap := mapSet m.typeMap fullName declaration }
    do
      let m2 ← init m1
      .ok (m2, (mapGet m2.typeMap fullName).getD declaration)

/-- codeModel.ts:273-277 `Model.addType`: throw when the key exists, else
insert under the declaration name. -/
def Model.addType (m : Model) (t : TypeDeclaration) : Except GenError Model :=
  if mapHas m.typeMap t.name then .error (.thrown "Type already exists")
  else .ok { m with typeMap := mapSet m.typeMap t.name t }

/-- In-place mutation of the declaration object stored under a key (JS code
mutates the object; every registry entry holding that key sees the change). -/
def updateDeclAt (m : Model) (k : String) (f : TypeDeclaration → TypeDeclaration) : Model :=
  { m with typeMap := m.typeMap.map (fun kv => if kv.1 = k then (kv.1, f kv.2) else kv) }

/-! ## Generator (generator.ts) -/

/-- Append a regular property to the interface declaration stored under a
key (`declaration.addProperty`, codeModel.ts:40-45, through the aliased
registry entry). -/
def addPropertyAt (m : Model) (k : String) (name : String) (tr : TypeReference)
    (isNullable : Bool) : Model :=
  updateDeclAt m k (fun d =>
    match d with
    | .interfaceDecl i =>
        .interfaceDecl { i with properties :=
          i.properties ++ [{ name := name, type := tr, isNullable := isNullable }] }
    | other => other)

/-- Append a navigation property (`declaration.addNavProperty`,
codeModel.ts:34-39: always nullable). -/
def addNavPropertyAt (m : Model) (k : String) (name : String) (tr : TypeReference) : Model :=
  updateDeclAt m k (fun d =>
    match d with
    | .interfaceDecl i =>
        .interfaceDecl { i with navigation :=
          i.navigation ++ [{ name := name, type := tr, isNullable := true }] }
    | other => other)

/-- Set the `comment` field of the declaration stored under a key. -/
def setCommentAt (m : Model) (k : String) (c : Option String) : Model :=
  updateDeclAt m k (fun d =>
    match d with
    | .interfaceDecl i => .interfaceDecl { i with comment := c }
    | .enumDecl e => .enumDecl { e with comment := c }
    | other => other)

/-- generator.ts:85-90 `initEnumType`: add every metadata member in order to
the enum declaration registered under `key`, then set its comment to the
qualified name.  The fallthrough case cannot occur in a run: `getOrAddType`
registers the enum declaration under `key` immediately before calling this
initializer. -/
def initEnumType (edmEnumType : EdmTypeData) (key : String) (m : Model) :
    Except GenError Model :=
  match mapGet m.typeMap key with
  | some (.enumDecl d) => do
      let d2 ← edmEnumType.members.foldlM
        (fun acc nv => EnumDeclaration.addMember acc nv.1 nv.2) d
      .ok (updateDeclAt m key (fun _ =>
        .enumDecl { d2 with comment := some edmEnumType.qualifiedName }))
  | _ => .ok m

/-- The property loop of generator.ts:61-75 (`internalAddProps`),
parameterized by the resolver so that the fueled recursion stays structural:
for each property, if its path `FullName.prop` passes the filter, resolve
its type; when resolution yields a reference, append it to the declaration
under `key` as a navigation property (when iterating `navProperties`) or as
a regular property carrying the metadata nullability. -/
def addPropsWith (resolve : Model → EdmTypeRefData → Except GenError (Model × Option TypeReference))
    (options : GeneratorOptions) (fullName key : String) (isNav : Bool) :
    List (String × EdmTypeRefData) → Model → Except GenError Model
  | [], m => .ok m
  | (propName, edmTypeReference) :: rest, m =>
    let propPath := fullName ++ "." ++ propName
    if isIncludeObject propPath options then do
      let (m1, trOpt) ← resolve m edmTypeReference
      match trOpt with
      | some typeReference =>
          let m2 := if isNav then addNavPropertyAt m1 key propName typeReference
                    else addPropertyAt m1 key propName typeReference edmTypeReference.nullable
          addPropsWith resolve options fullName key isNav rest m2
      | none => addPropsWith resolve options fullName key isNav rest m1
    else addPropsWith resolve options fullName key isNav rest m

/-- generator.ts:59-83 `initEntityType`, parameterized by the resolver:
regular properties first, then navigation properties, then the comment. -/
def initEntityTypeWith (resolve : Model → EdmTypeRefData → Except GenError (Model × Option TypeReference))
    (options : GeneratorOptions) (edmEntityType : EdmTypeData) (key : String) (m : Model) :
    Except GenError Model := do
  let m1 ← addPropsWith resolve options edmEntityType.qualifiedName key false
    edmEntityType.properties m
  let m2 ← addPropsWith resolve options edmEntityType.qualifiedName key true
    edmEntityType.navProperties m1
  .ok (setCommentAt m2 key (some edmEntityType.qualifiedName))

/-- generator.ts:119-131 `getTypeReference`, with explicit fuel consumed at
every call.  A primitive (string) type yields a direct reference.  For a
named type rejected by the filter, the result carries the bare short name
and nothing is registered.  Otherwise the named type routes through
`Model.getOrAddType` with the entity or enum initializer.  The `none`
branch of `findType` stands for the unreachable situation where a metadata
type object would not exist; it mirrors the source `undefined` result for
an unrecognized kind. -/
def getTypeReference : Nat → ApiMetadata → GeneratorOptions → Model → EdmTypeRefData →
    Except GenError (Model × Option TypeReference)
  | 0, _, _, _, _ => .error .fuelOut
  | fuel + 1, md, options, m, edmRef =>
    match edmRef.type with
    | .prim s => .ok (m, some { type := .str s, isArray := edmRef.collection })
    | .named r =>
      if !(isIncludeObject r.qname options) then
        let resType : TRTarget := .str r.name
        .ok (m, if resType.truthy then
                  some { type := resType, isArray := edmRef.collection }
                else none)
      else
        match md.findType r.qname with
        | none => .ok (m, none)
        | some t =>
          match t.kind with
          | .enumKind => do
              let (m1, _) ← Model.getOrAddType m t (initEnumType t t.qualifiedName)
              .ok (m1, some { type := .declKey t.qualifiedName, isArray := edmRef.collection })
          | _ => do
              let (m1, _) ← Model.getOrAddType m t
                (initEntityTypeWith (getTypeReference fuel md options) options t t.qualifiedName)
              .ok (m1, some { type := .declKey t.qualifiedName, isArray := edmRef.collection })

/-- generator.ts:59-83 `initEntityType` at a given fuel level. -/
def initEntityType (fuel : Nat) (md : ApiMetadata) (options : GeneratorOptions)
    (edmEntityType : EdmTypeData) (key : String) (m : Model) : Except GenError Model :=
  initEntityTypeWith (getTypeReference fuel md options) options edmEntityType key m

/-! ### API context generator -/

/-- The loop body of generator.ts:102-114: for each entity set or singleton
(flag `isCol`), resolve a type reference to its entity type, then add a
navigation property to the context declaration when the name passes the
filter, or when the reference resolved to a declaration object and the name
is not excluded. -/
def apiContextLoop (fuel : Nat) (md : ApiMetadata) (options : GeneratorOptions) :
    List (String × TypeNameRef × Bool) → Model → InterfaceDeclaration →
    Except GenError (Model × InterfaceDeclaration)
  | [], m, d => .ok (m, d)
  | (pname, tref, isCol) :: rest, m, d => do
    let propPath := joinNonEmptyDot [md.containerName, pname]
    let (m1, trOpt) ← getTypeReference fuel md options m
      { type := .named tref, nullable := false, collection := isCol }
    let d1 :=
      match trOpt with
      | some typeRef =>
        if isIncludeObject propPath options
            || ((match typeRef.type with | .declKey _ => true | .str _ => false)
                && !(isExclude propPath options)) then
          { d with navigation := d.navigation ++
              [{ name := pname, type := typeRef, isNullable := true, comment := some propPath }] }
        else d
      | none => d
    apiContextLoop fuel md options rest m1 d1

/-- generator.ts:92-117 `generateApiContext`: build the context declaration
(named from the option override or `<container or Odata>Context`, based on
the option override or the built-in context base) and fill its navigation
properties from entity sets (collections) then singletons. -/
def generateApiContext (fuel : Nat) (m : Model) (md : ApiMetadata)
    (options : GeneratorOptions) : Except GenError (Model × InterfaceDeclaration) :=
  let baseClass := jsOrOptStr options.apiContextBase API_CONTEXT_BASE_TYPE
  let apiContextName := jsOrOptStr options.apiContextName
    (jsOrStr md.containerName "Odata" ++ "Context")
  let d : InterfaceDeclaration := { name := apiContextName, baseClass := baseClass }
  apiContextLoop fuel md options
    (md.entitySets.map (fun p => (p.1, p.2, true))
      ++ md.singletons.map (fun p => (p.1, p.2, false)))
    m d

/-! ### Operation binder -/

/-- A reference to the declaration an operation binds to: the api-context
declaration, or a registered entity declaration (by registry key). -/
inductive DeclTarget
  | context
  | mapKey (k : String)
  deriving DecidableEq, Repr

/-- Read the interface declaration an operation binding designates. -/
def Model.readIface (m : Model) : DeclTarget → Option InterfaceDeclaration
  | .context => m.contextDeclaration
  | .mapKey k =>
    match mapGet m.typeMap k with
    | some (.interfaceDecl d) => some d
    | _ => none

/-- Write back the (mutated) interface declaration of a binding target. -/
def Model.writeIface (m : Model) : DeclTarget → InterfaceDeclaration → Model
  | .context, d => { m with contextDeclaration := some d }
  | .mapKey k, d =>
    updateDeclAt m k (fun old =>
      match old with
      | .interfaceDecl _ => .interfaceDecl d
      | other => other)

/-- generator.ts:186-202 `getOperTypeRef`: when the bucket slot is empty,
synthesize the operations interface named
`"_" ++ binding short name (or context name) ++ optional "EntitySet" ++
("Actions" or "Functions")`, register it via `Model.addType` (which throws
on a name collision), and return a reference to it; otherwise return the
existing slot value.  Reading `model.contextDeclaration.name` with no
context declaration would be a JS `TypeError`; `generate` always sets the
context first, so the empty-string fallback is unreachable. -/
def getOperTypeRef (operTypeRef : Option TypeReference) (operation : OperationMetadata)
    (m : Model) : Except GenError (Model × TypeReference) :=
  match operTypeRef with
  | some tr => .ok (m, tr)
  | none =>
    let contextName := match m.contextDeclaration with
      | some c => c.name
      | none => ""
    let bindtoTypeName := match operation.bindingTo with
      | some b => jsOrStr b.target.name contextName
      | none => contextName
    let pfx := match operation.bindingTo with
      | some b => if b.collection then "EntitySet" else ""
      | none => ""
    let sfx := if operation.isAction then "Actions" else "Functions"
    let ifaceName := "_" ++ bindtoTypeName ++ pfx ++ sfx
    do
      let m1 ← m.addType (.opInterfaceDecl { name := ifaceName, isExport := true })
      .ok (m1, { type := .declKey ifaceName, isArray := false })

/-- Select the bucket slot of generator.ts:157-168 from the two flags. -/
def selectSlot (opsRef : OperationsRefDeclaration) (isSetBinded isAction : Bool) :
    Option TypeReference :=
  if isSetBinded then
    (if isAction then opsRef.entitysetActions else opsRef.entitysetFunctions)
  else
    (if isAction then opsRef.actions else opsRef.functions)

/-- Store a reference into the bucket slot of generator.ts:157-168. -/
def storeSlot (opsRef : OperationsRefDeclaration) (isSetBinded isAction : Bool)
    (tr : TypeReference) : OperationsRefDeclaration :=
  if isSetBinded then
    (if isAction then { opsRef with entitysetActions := some tr }
     else { opsRef with entitysetFunctions := some tr })
  else
    (if isAction then { opsRef with actions := some tr }
     else { opsRef with functions := some tr })

/-- Append a method to the operations interface declaration under a key. -/
def pushMethodAt (m : Model) (k : String) (meth : MethodDeclaration) : Model :=
  updateDeclAt m k (fun d =>
    match d with
    | .opInterfaceDecl o => .opInterfaceDecl { o with methods := o.methods ++ [meth] }
    | other => other)

/-- Resolve the parameter list of generator.ts:172-179 in order, threading
the model through each `getTypeReference` call. -/
def resolveParams (fuel : Nat) (md : ApiMetadata) (options : GeneratorOptions) :
    List (String × EdmTypeRefData) → Model → Except GenError (Model × List MethodParameter)
  | [], m => .ok (m, [])
  | (pname, ptype) :: rest, m => do
    let (m1, trOpt) ← getTypeReference fuel md options m ptype
    let (m2, tail) ← resolveParams fuel md options rest m1
    .ok (m2, { name := pname, typeRef := trOpt, isNullable := ptype.nullable } :: tail)

/-- generator.ts:171 `operation.returnType && getTypeReference(...)`: the
JS short-circuit conjunction resolves the return type only when present. -/
def resolveReturnType (fuel : Nat) (md : ApiMetadata) (options : GeneratorOptions)
    (rt? : Option EdmTypeRefData) (m : Model) :
    Except GenError (Model × Option TypeReference) :=
  match rt? with
  | some rt => getTypeReference fuel md options m rt
  | none => .ok (m, none)

/-- The body of generator.ts:152-183 once the binding target declaration is
known: ensure `operationsRef` exists, fetch or create the bucket interface,
store the slot, resolve return type and parameters, and append the method
(name, return type, parameters, comment = qualified name) to the bucket
interface through the registry.  The two fallthrough `.ok` branches stand
for situations the dynamic source cannot reach (the target declaration and
the bucket interface always exist as objects). -/
def generateOperationCore (fuel : Nat) (operation : OperationMetadata) (md : ApiMetadata)
    (options : GeneratorOptions) (isSetBinded : Bool) (target : DeclTarget) (m : Model) :
    Except GenError Model :=
  match Model.readIface m target with
  | none => .ok m
  | some d0 =>
    let opsRef := d0.operationsRef.getD {}
    let m1 := Model.writeIface m target { d0 with operationsRef := some opsRef }
    do
      let (m2, operTypeRef) ← getOperTypeRef (selectSlot opsRef isSetBinded operation.isAction)
        operation m1
      let m3 := Model.writeIface m2 target
        { d0 with operationsRef := some (storeSlot opsRef isSetBinded operation.isAction operTypeRef) }
      let (m4, returnType) ← resolveReturnType fuel md options operation.returnType m3
      let (m5, params) ← resolveParams fuel md options operation.parameters m4
      let methodDeclaration : MethodDeclaration :=
        { name := operation.name, returnType := returnType, parameters := params,
          comment := some operation.qualifiedName }
      match operTypeRef.type with
      | .declKey k => .ok (pushMethodAt m5 k methodDeclaration)
      | .str _ => .ok m5

/-- generator.ts:141-184 `generateOperation`: a bound operation whose
binding type is filtered out is dropped; otherwise the binding type is
materialized through `getOrAddType` and the operation is appended to the
appropriate bucket of that declaration (or of the api context when
unbound; nothing happens when there is no context declaration). -/
def generateOperation (fuel : Nat) (operation : OperationMetadata) (md : ApiMetadata)
    (options : GeneratorOptions) (m : Model) : Except GenError Model :=
  match operation.bindingTo with
  | some b =>
    if !(isIncludeObject b.target.qname options) then .ok m
    else
      match md.findType b.target.qname with
      | none => .ok m
      | some t => do
          let (m1, _) ← Model.getOrAddType m t
            (initEntityTypeWith (getTypeReference fuel md options) options t t.qualifiedName)
          generateOperationCore fuel operation md options (b.collection = true)
            (.mapKey t.qualifiedName) m1
  | none =>
    match m.contextDeclaration with
    | none => .ok m
    | some _ => generateOperationCore fuel operation md options false .context m

/-- The loop of generator.ts:133-139, over a list of operations. -/
def generateOperationsLoop (fuel : Nat) (md : ApiMetadata) (options : GeneratorOptions) :
    List OperationMetadata → Model → Except GenError Model
  | [], m => .ok m
  | operation :: rest, m =>
    if isIncludeObject operation.qualifiedName options then do
      let m1 ← generateOperation fuel operation md options m
      generateOperationsLoop fuel md options rest m1
    else generateOperationsLoop fuel md options rest m

/-- generator.ts:133-139 `generateOperations`: every operation of every
namespace, in order, filtered by its qualified name. -/
def generateOperations (fuel : Nat) (md : ApiMetadata) (options : GeneratorOptions)
    (m : Model) : Except GenError Model :=
  generateOperationsLoop fuel md options md.operations m

/-! ## Rendering (codeModel.ts toTsNode layer)

The TypeScript AST printer is an external collaborator; rendered nodes are
modelled just deeply enough to observe the emitted type names. -/

/-- A rendered type annotation: a named type reference, possibly wrapped in
array nodes (codeModel.ts:144-154). -/
inductive TypeNode
  | ref (name : String)
  | arrayOf (t : TypeNode)
  deriving DecidableEq, Repr

/-- codeModel.ts:309-321 `edmTypeMap`: the built-in primitive mapping.  The
keys are the string values of the external `EdmTypes` enum (modelled from
the spec: OData primitive type names `Edm.*`). -/
def edmTypeMap : String → Option String := fun s =>
  (List.lookup s
    [("Edm.Boolean", "boolean"), ("Edm.Date", "Date"), ("Edm.DateTimeOffset", "Date"),
     ("Edm.Decimal", "number"), ("Edm.Double", "number"), ("Edm.Guid", "string"),
     ("Edm.Int16", "number"), ("Edm.Int32", "number"), ("Edm.Single", "boolean"),
     ("Edm.String", "string"), ("Edm.TimeOfDay", "Date")])

/-- codeModel.ts:144-154 `TypeReference.toTypeNode`: a string type renders
through `edmTypeMap[type] || type`; a declaration renders by its `name`
(the declaration is read through the registry, modelling the JS object
reference); an array flag wraps the node. -/
def TypeReference.toTypeNode (m : Model) (tr : TypeReference) : TypeNode :=
  let typeName :=
    match tr.type with
    | .str s => (edmTypeMap s).getD s
    | .declKey k => ((mapGet m.typeMap k).map TypeDeclaration.name).getD ""
  if tr.isArray then .arrayOf (.ref typeName) else .ref typeName

/-- The base name under any array wrappers of a rendered type node. -/
def TypeNode.baseName : TypeNode → String
  | .ref n => n
  | .arrayOf t => t.baseName

/-- A rendered top-level node, as deep as the claims need: the parsed import
statements, the api-context type alias
(`export type <name> = ApiContext<target>`), or a declaration. -/
inductive Node
  | importsChunk (src : String)
  | typeAlias (name : String) (target : String)
  | decl (d : TypeDeclaration)
  deriving DecidableEq, Repr

/-- Test whether the first character of a string is `c`  (JS `s[0] != "I"`
is true for the empty string: `undefined != "I"`). -/
def firstCharIs (s : String) (c : Char) : Bool :=
  match s.data with
  | [] => false
  | a :: _ => a = c

/-- JS `s.substr(1)`. -/
def substrFrom1 (s : String) : String :=
  String.mk (s.data.drop 1)

/-- codeModel.ts:296-306 `createApiContextAlias`:
`export type <name> = ApiContext<contextDeclaration.name>` (reads the
context name after any renaming). -/
def Model.createApiContextAlias (m : Model) (name : String) : Node :=
  .typeAlias name (((m.contextDeclaration).map (fun c => c.name)).getD "")

/-- codeModel.ts:279-294 `Model.toNodeArray`: emit imports; if a context
declaration exists, rename it in place to start with `I` when it does not
already, emit the alias under the interface name minus its first character,
then the context interface; finally every registered declaration in
registration order.  Returns the (possibly mutated) model with the nodes. -/
def Model.toNodeArray (m : Model) : Model × List Node :=
  let nodes : List Node := [.importsChunk (String.intercalate ";" m.imports)]
  match m.contextDeclaration with
  | none => (m, nodes ++ m.typeDeclarations.map Node.decl)
  | some ctx =>
    let apiContextInterfaceName :=
      if firstCharIs ctx.name 'I' then ctx.name else "I" ++ ctx.name
    let m1 : Model := { m with contextDeclaration := some { ctx with name := apiContextInterfaceName } }
    let apiContextName := substrFrom1 apiContextInterfaceName
    (m1, nodes
      ++ [m1.createApiContextAlias apiContextName,
          .decl (.interfaceDecl { ctx with name := apiContextInterfaceName })]
      ++ m1.typeDeclarations.map Node.decl)

/-- generator.ts:16-40 `generate`: fresh model, base import plus option
imports, api context, operations, then rendering.  The `afterBuildModel`
hook is an external collaborator and is not modelled. -/
def generate (fuel : Nat) (md : ApiMetadata) (options : GeneratorOptions) :
    Except GenError (Model × List Node) := do
  let m0 : Model :=
    { imports :=
        "import \x7b ApiContext, IApiContextBase, IComplexBase, IEntityBase \x7d from \"pailingual-odata\""
          :: options.imports }
  let (m1, ctx) ← generateApiContext fuel m0 md options
  let m2 : Model := { m1 with contextDeclaration := some ctx }
  let m3 ← generateOperations fuel md options m2
  .ok m3.toNodeArray

/-! ## Registry lemmas -/

/-- One registry entry at most per key: the central dedup invariant. -/
def UniqKeys (m : Model) : Prop :=
  ∀ k, countKey m.typeMap k ≤ 1

/-- Keys only ever accumulate during a run. -/
def KeysMono (m m2 : Model) : Prop :=
  ∀ k, mapHas m.typeMap k = true → mapHas m2.typeMap k = true

theorem mapHas_false_iff (l : TypeMap) (k : String) :
    mapHas l k = false ↔ countKey l k = 0 := by
  induction l with
  | nil => simp [mapHas, countKey]
  | cons kv rest ih =>
    by_cases hk : kv.1 = k
    · simp [mapHas, countKey, List.filter_cons, hk]
    · simp only [mapHas, countKey, List.filter_cons, List.any_cons, hk] at ih ⊢
      simp [hk, ih]

theorem mapHas_true_count (l : TypeMap) (k : String) (h : mapHas l k = true) :
    1 ≤ countKey l k := by
  by_contra hc
  have h0 : countKey l k = 0 := by omega
  rw [← mapHas_false_iff] at h0
  simp [h] at h0

theorem mapGet_none_iff (l : TypeMap) (k : String) :
    mapGet l k = none ↔ mapHas l k = false := by
  induction l with
  | nil => simp [mapGet, mapHas]
  | cons kv rest ih =>
    by_cases hk : kv.1 = k <;>
      simp [mapGet, mapHas, List.find?, hk, ih]

theorem mapGet_some_of_has (l : TypeMap) (k : String) (h : mapHas l k = true) :
    ∃ d, mapGet l k = some d := by
  cases hg : mapGet l k with
  | some d => exact ⟨d, rfl⟩
  | none => rw [mapGet_none_iff] at hg; simp [hg] at h

theorem mapHas_of_get_some (l : TypeMap) (k : String) (d : TypeDeclaration)
    (h : mapGet l k = some d) : mapHas l k = true := by
  cases hh : mapHas l k with
  | true => rfl
  | false => rw [← mapGet_none_iff] at hh; simp [hh] at h

theorem mapSet_not_has (l : TypeMap) (k : String) (v : TypeDeclaration)
    (h : mapHas l k = false) : mapSet l k v = l ++ [(k, v)] := by
  induction l with
  | nil => simp [mapSet]
  | cons kv rest ih =>
    simp [mapHas] at h
    simp [mapSet, h.1, ih (by simpa [mapHas] using h.2)]

theorem countKey_append (l l2 : TypeMap) (k : String) :
    countKey (l ++ l2) k = countKey l k + countKey l2 k := by
  simp [countKey, List.filter_append]

theorem countKey_single (k k2 : String) (v : TypeDeclaration) :
    countKey [(k, v)] k2 = if k = k2 then 1 else 0 := by
  by_cases h : k = k2 <;> simp [countKey, List.filter, h]

theorem mapHas_append (l l2 : TypeMap) (k : String) :
    mapHas (l ++ l2) k = (mapHas l k || mapHas l2 k) := by
  simp [mapHas, List.any_append]

/-- `updateDeclAt` touches only values: every key-derived observation is
unchanged. -/
theorem updateDeclAt_typeMap_fst (m : Model) (k : String)
    (f : TypeDeclaration → TypeDeclaration) :
    ((updateDeclAt m k f).typeMap.map (fun kv => kv.1)) = m.typeMap.map (fun kv => kv.1) := by
  simp only [updateDeclAt, List.map_map]
  apply List.map_congr_left
  intro kv _
  by_cases h : kv.1 = k <;> simp [h]

theorem updateDeclAt_mapHas (m : Model) (k k2 : String)
    (f : TypeDeclaration → TypeDeclaration) :
    mapHas (updateDeclAt m k f).typeMap k2 = mapHas m.typeMap k2 := by
  show mapHas (m.typeMap.map _) k2 = mapHas m.typeMap k2
  generalize m.typeMap = l
  induction l with
  | nil => rfl
  | cons kv rest ih =>
    by_cases h : kv.1 = k <;> simp [mapHas, h, ih] <;> simp [mapHas] at ih <;> rw [ih]

theorem updateDeclAt_countKey (m : Model) (k k2 : String)
    (f : TypeDeclaration → TypeDeclaration) :
    countKey (updateDeclAt m k f).typeMap k2 = countKey m.typeMap k2 := by
  show countKey (m.typeMap.map _) k2 = countKey m.typeMap k2
  generalize m.typeMap = l
  induction l with
  | nil => rfl
  | cons kv rest ih =>
    simp only [countKey] at ih
    by_cases h : kv.1 = k <;> by_cases h2 : kv.1 = k2 <;>
      subst_eqs <;>
      simp_all [countKey, List.filter_cons]

theorem updateDeclAt_context (m : Model) (k : String)
    (f : TypeDeclaration → TypeDeclaration) :
    (updateDeclAt m k f).contextDeclaration = m.contextDeclaration := rfl

/-! ## Preservation of the registry invariant -/

/-- Relation between a model and its successor in one construction step:
keys are preserved, and key uniqueness is preserved. -/
def RegistryStep (m m2 : Model) : Prop :=
  KeysMono m m2 ∧ (UniqKeys m → UniqKeys m2)

theorem RegistryStep.refl (m : Model) : RegistryStep m m :=
  ⟨fun _ h => h, fun h => h⟩

theorem RegistryStep.trans {m1 m2 m3 : Model}
    (h12 : RegistryStep m1 m2) (h23 : RegistryStep m2 m3) : RegistryStep m1 m3 :=
  ⟨fun k h => h23.1 k (h12.1 k h), fun h => h23.2 (h12.2 h)⟩

theorem registryStep_updateDeclAt (m : Model) (k : String)
    (f : TypeDeclaration → TypeDeclaration) : RegistryStep m (updateDeclAt m k f) := by
  constructor
  · intro k2 h
    rw [updateDeclAt_mapHas]
    exact h
  · intro h k2
    rw [updateDeclAt_countKey]
    exact h k2

/-- Appending a fresh key preserves the invariant and the existing keys. -/
theorem registryStep_insert_fresh (m : Model) (k : String) (v : TypeDeclaration)
    (h : mapHas m.typeMap k = false) :
    RegistryStep m { m with typeMap := mapSet m.typeMap k v } := by
  rw [mapSet_not_has m.typeMap k v h]
  constructor
  · intro k2 h2
    simp only [mapHas_append]
    simp [h2]
  · intro hu k2
    rw [countKey_append, countKey_single]
    by_cases hk : k = k2
    · subst hk
      rw [(mapHas_false_iff m.typeMap k).mp h]
      simp
    · have := hu k2
      simp [hk]
      omega

/-- The two ways `getOrAddType` can succeed: a hit leaves the model alone
and returns the stored declaration; a miss registers the placeholder before
running `init` on the extended model. -/
theorem getOrAddType_ok_cases (m : Model) (t : EdmTypeData)
    (init : Model → Except GenError Model) (m2 : Model) (d : TypeDeclaration)
    (h : Model.getOrAddType m t init = .ok (m2, d)) :
    (mapGet m.typeMap t.qualifiedName = some d ∧ m2 = m)
    ∨ (mapGet m.typeMap t.qualifiedName = none ∧
       init { m with typeMap := mapSet m.typeMap t.qualifiedName (newDeclarationFor t) } = .ok m2) := by
  simp only [Model.getOrAddType] at h
  cases hg : mapGet m.typeMap t.qualifiedName with
  | some d0 =>
    rw [hg] at h
    simp at h
    obtain ⟨hm, hd⟩ := h
    subst hm
    subst hd
    exact Or.inl ⟨rfl, rfl⟩
  | none =>
    rw [hg] at h
    simp only at h
    cases hi : init { m with typeMap := mapSet m.typeMap t.qualifiedName (newDeclarationFor t) } with
    | error e => rw [hi] at h; simp [Bind.bind, Except.bind] at h
    | ok mi =>
      rw [hi] at h
      simp [Bind.bind, Except.bind] at h
      obtain ⟨hm, _⟩ := h
      subst hm
      exact Or.inr ⟨rfl, rfl⟩

theorem getOrAddType_registryStep (m : Model) (t : EdmTypeData)
    (init : Model → Except GenError Model) (m2 : Model) (d : TypeDeclaration)
    (hinit : ∀ m0 m1, init m0 = .ok m1 → RegistryStep m0 m1)
    (h : Model.getOrAddType m t init = .ok (m2, d)) : RegistryStep m m2 := by
  rcases getOrAddType_ok_cases m t init m2 d h with ⟨_, rfl⟩ | ⟨hg, hi⟩
  · exact RegistryStep.refl _
  · exact RegistryStep.trans
      (registryStep_insert_fresh m t.qualifiedName (newDeclarationFor t)
        ((mapGet_none_iff _ _).mp hg))
      (hinit _ _ hi)

/-- `initEnumType` changes at most the declaration value stored under its
key; every key observation is untouched. -/
theorem initEnumType_registryStep (t : EdmTypeData) (key : String) (m m2 : Model)
    (h : initEnumType t key m = .ok m2) : RegistryStep m m2 := by
  unfold initEnumType at h
  cases hg : mapGet m.typeMap key with
  | none => rw [hg] at h; simp at h; rw [← h]; exact RegistryStep.refl m
  | some d =>
    rw [hg] at h
    cases d with
    | interfaceDecl i => simp at h; rw [← h]; exact RegistryStep.refl m
    | opInterfaceDecl o => simp at h; rw [← h]; exact RegistryStep.refl m
    | enumDecl e =>
      simp only at h
      cases hf : t.members.foldlM (fun acc nv => EnumDeclaration.addMember acc nv.1 nv.2) e with
      | error er => rw [hf] at h; simp [Bind.bind, Except.bind] at h
      | ok d2 =>
        rw [hf] at h
        simp [Bind.bind, Except.bind] at h
        rw [← h]
        exact registryStep_updateDeclAt m key _

/-- The property loop preserves the registry invariant whenever the
resolver it is given does. -/
theorem addPropsWith_registryStep
    (resolve : Model → EdmTypeRefData → Except GenError (Model × Option TypeReference))
    (options : GeneratorOptions) (fullName key : String) (isNav : Bool)
    (hres : ∀ m r m2 tr, resolve m r = .ok (m2, tr) → RegistryStep m m2) :
    ∀ (props : List (String × EdmTypeRefData)) (m m2 : Model),
      addPropsWith resolve options fullName key isNav props m = .ok m2 →
      RegistryStep m m2 := by
  intro props
  induction props with
  | nil =>
    intro m m2 h
    simp [addPropsWith] at h
    rw [← h]
    exact RegistryStep.refl m
  | cons p rest ih =>
    intro m m2 h
    rw [addPropsWith] at h
    by_cases hinc : isIncludeObject (fullName ++ "." ++ p.1) options = true
    · rw [hinc] at h
      simp only [if_true] at h
      cases hr : resolve m p.2 with
      | error e => rw [hr] at h; simp [Bind.bind, Except.bind] at h
      | ok pair =>
        rw [hr] at h
        simp only [Bind.bind, Except.bind] at h
        obtain ⟨m1, trOpt⟩ := pair
        have step1 : RegistryStep m m1 := hres m p.2 m1 trOpt hr
        cases trOpt with
        | none => exact RegistryStep.trans step1 (ih m1 m2 h)
        | some tr =>
          simp only at h
          by_cases hnav : isNav
          · rw [if_pos hnav] at h
            exact RegistryStep.trans step1
              (RegistryStep.trans (registryStep_updateDeclAt m1 key _) (ih _ m2 h))
          · rw [if_neg hnav] at h
            exact RegistryStep.trans step1
              (RegistryStep.trans (registryStep_updateDeclAt m1 key _) (ih _ m2 h))
    · rw [Bool.not_eq_true] at hinc
      rw [hinc] at h
      simp only [if_false] at h
      exact ih m m2 h

theorem initEntityTypeWith_registryStep
    (resolve : Model → EdmTypeRefData → Except GenError (Model × Option TypeReference))
    (options : GeneratorOptions) (t : EdmTypeData) (key : String) (m m2 : Model)
    (hres : ∀ m r m2 tr, resolve m r = .ok (m2, tr) → RegistryStep m m2)
    (h : initEntityTypeWith resolve options t key m = .ok m2) : RegistryStep m m2 := by
  unfold initEntityTypeWith at h
  cases h1 : addPropsWith resolve options t.qualifiedName key false t.properties m with
  | error e => rw [h1] at h; simp [Bind.bind, Except.bind] at h
  | ok ma =>
    rw [h1] at h
    simp only [Bind.bind, Except.bind] at h
    cases h2 : addPropsWith resolve options t.qualifiedName key true t.navProperties ma with
    | error e => rw [h2] at h; simp [Except.bind] at h
    | ok mb =>
      rw [h2] at h
      simp only [Except.bind] at h
      simp at h
      rw [← h]
      exact RegistryStep.trans
        (addPropsWith_registryStep resolve options t.qualifiedName key false hres _ m ma h1)
        (RegistryStep.trans
          (addPropsWith_registryStep resolve options t.qualifiedName key true hres _ ma mb h2)
          (registryStep_updateDeclAt mb key _))

/-- Key lemma: the recursive resolver preserves keys and key uniqueness. -/
theorem getTypeReference_registryStep :
    ∀ (fuel : Nat) (md : ApiMetadata) (options : GeneratorOptions) (m : Model)
      (r : EdmTypeRefData) (m2 : Model) (tr : Option TypeReference),
      getTypeReference fuel md options m r = .ok (m2, tr) → RegistryStep m m2 := by
  intro fuel
  induction fuel with
  | zero => intro md options m r m2 tr h; simp [getTypeReference] at h
  | succ fuel ih =>
    intro md options m r m2 tr h
    rw [getTypeReference] at h
    cases hr : r.type with
    | prim s =>
      rw [hr] at h
      simp at h
      rw [← h.1]
      exact RegistryStep.refl m
    | named q =>
      rw [hr] at h
      simp only at h
      by_cases hinc : isIncludeObject q.qname options = true
      · rw [hinc] at h
        simp only [Bool.not_true, Bool.false_eq_true, if_false] at h
        cases hft : md.findType q.qname with
        | none => rw [hft] at h; simp at h; rw [← h.1]; exact RegistryStep.refl m
        | some t =>
          rw [hft] at h
          simp only at h
          cases hk : t.kind with
          | enumKind =>
            rw [hk] at h
            cases hga : Model.getOrAddType m t (initEnumType t t.qualifiedName) with
            | error e => rw [hga] at h; simp [Bind.bind, Except.bind] at h
            | ok pair =>
              rw [hga] at h
              simp [Bind.bind, Except.bind] at h
              obtain ⟨mi, d⟩ := pair
              have := getOrAddType_registryStep m t _ mi d
                (fun m0 m1 hh => initEnumType_registryStep t t.qualifiedName m0 m1 hh) hga
              simp at h
              rw [← h.1]
              exact this
          | entity =>
            rw [hk] at h
            simp only at h
            cases hga : Model.getOrAddType m t
                (initEntityTypeWith (getTypeReference fuel md options) options t t.qualifiedName) with
            | error e => rw [hga] at h; simp [Bind.bind, Except.bind] at h
            | ok pair =>
              rw [hga] at h
              simp [Bind.bind, Except.bind] at h
              obtain ⟨mi, d⟩ := pair
              have := getOrAddType_registryStep m t _ mi d
                (fun m0 m1 hh => initEntityTypeWith_registryStep _ options t t.qualifiedName m0 m1
                  (fun ma rr mb trr hb => ih md options ma rr mb trr hb) hh) hga
              simp at h
              rw [← h.1]
              exact this
          | complex =>
            rw [hk] at h
            simp only at h
            cases hga : Model.getOrAddType m t
                (initEntityTypeWith (getTypeReference fuel md options) options t t.qualifiedName) with
            | error e => rw [hga] at h; simp [Bind.bind, Except.bind] at h
            | ok pair =>
              rw [hga] at h
              simp [Bind.bind, Except.bind] at h
              obtain ⟨mi, d⟩ := pair
              have := getOrAddType_registryStep m t _ mi d
                (fun m0 m1 hh => initEntityTypeWith_registryStep _ options t t.qualifiedName m0 m1
                  (fun ma rr mb trr hb => ih md options ma rr mb trr hb) hh) hga
              simp at h
              rw [← h.1]
              exact this
      · rw [Bool.not_eq_true] at hinc
        rw [hinc] at h
        simp at h
        rw [← h.1]
        exact RegistryStep.refl m

/-! ## Evaluation lemmas for the resolver -/

/-- With no include and no exclude option every name passes the filter. -/
theorem isIncludeObject_default (s : String) : isIncludeObject s {} = true := rfl

/-- A primitive (string-typed) metadata reference resolves immediately, with
no registry interaction and no filtering. -/
theorem getTypeReference_prim (fuel : Nat) (md : ApiMetadata) (options : GeneratorOptions)
    (m : Model) (r : EdmTypeRefData) (s : String) (hr : r.type = .prim s) :
    getTypeReference (fuel + 1) md options m r
      = .ok (m, some { type := .str s, isArray := r.collection }) := by
  rw [getTypeReference, hr]

/-- A named reference rejected by the filter resolves to the bare short
name, leaving the model untouched (generator.ts:123, 129-130). -/
theorem getTypeReference_excluded (fuel : Nat) (md : ApiMetadata) (options : GeneratorOptions)
    (m : Model) (r : EdmTypeRefData) (q : TypeNameRef) (hr : r.type = .named q)
    (hinc : isIncludeObject q.qname options = false) (hn : q.name ≠ "") :
    getTypeReference (fuel + 1) md options m r
      = .ok (m, some { type := .str q.name, isArray := r.collection }) := by
  rw [getTypeReference, hr]
  simp [hinc, TRTarget.truthy, hn]

/-- Registry hit: `getOrAddType` returns the stored declaration and leaves
the model untouched, for an arbitrary initializer. -/
theorem getOrAddType_hit (m : Model) (t : EdmTypeData)
    (init : Model → Except GenError Model) (d : TypeDeclaration)
    (h : mapGet m.typeMap t.qualifiedName = some d) :
    Model.getOrAddType m t init = .ok (m, d) := by
  simp only [Model.getOrAddType]
  rw [h]

/-- Registry miss: the placeholder is registered first, then `init` runs on
the extended model. -/
theorem getOrAddType_miss (m : Model) (t : EdmTypeData)
    (init : Model → Except GenError Model) (m2 : Model)
    (hmiss : mapGet m.typeMap t.qualifiedName = none)
    (hinit : init { m with typeMap := mapSet m.typeMap t.qualifiedName (newDeclarationFor t) }
      = .ok m2) :
    Model.getOrAddType m t init
      = .ok (m2, (mapGet m2.typeMap t.qualifiedName).getD (newDeclarationFor t)) := by
  simp only [Model.getOrAddType]
  rw [hmiss]
  simp only [hinit, Bind.bind, Except.bind]

/-- An included entity (or complex) reference routes through `getOrAddType`
with the entity initializer and yields a declaration reference. -/
theorem getTypeReference_entity (fuel : Nat) (md : ApiMetadata) (options : GeneratorOptions)
    (m : Model) (r : EdmTypeRefData) (q : TypeNameRef) (t : EdmTypeData)
    (m2 : Model) (d : TypeDeclaration)
    (hr : r.type = .named q) (hinc : isIncludeObject q.qname options = true)
    (hft : md.findType q.qname = some t) (hk : t.kind = .entity)
    (hga : Model.getOrAddType m t
      (initEntityTypeWith (getTypeReference fuel md options) options t t.qualifiedName)
      = .ok (m2, d)) :
    getTypeReference (fuel + 1) md options m r
      = .ok (m2, some { type := .declKey t.qualifiedName, isArray := r.collection }) := by
  rw [getTypeReference, hr]
  simp only [hinc, Bool.not_true, Bool.false_eq_true, if_false, hft]
  rw [hk]
  simp only [hga, Bind.bind, Except.bind]

/-- The property loop over primitive-typed properties always succeeds and
leaves every key observation of the registry unchanged. -/
theorem addPropsWith_prim (fuel : Nat) (md : ApiMetadata) (options : GeneratorOptions)
    (fullName key : String) (isNav : Bool) :
    ∀ (props : List (String × EdmTypeRefData)) (m : Model),
      (∀ p ∈ props, ∃ s, p.2.type = EdmTypeId.prim s) →
      ∃ m2, addPropsWith (getTypeReference (fuel + 1) md options) options fullName key isNav props m
          = .ok m2
        ∧ (∀ k, mapHas m2.typeMap k = mapHas m.typeMap k)
        ∧ (∀ k, countKey m2.typeMap k = countKey m.typeMap k) := by
  intro props
  induction props with
  | nil =>
    intro m _
    exact ⟨m, rfl, fun _ => rfl, fun _ => rfl⟩
  | cons p rest ih =>
    intro m hp
    obtain ⟨s, hs⟩ := hp p (List.mem_cons_self p rest)
    have hrest : ∀ p2 ∈ rest, ∃ s, p2.2.type = EdmTypeId.prim s :=
      fun p2 h2 => hp p2 (List.mem_cons_of_mem p h2)
    rw [addPropsWith]
    by_cases hinc : isIncludeObject (fullName ++ "." ++ p.1) options = true
    · rw [hinc]
      simp only [if_true]
      rw [getTypeReference_prim fuel md options m p.2 s hs]
      simp only [Bind.bind, Except.bind]
      by_cases hnav : isNav
      · rw [if_pos hnav]
        obtain ⟨m2, hok, hhas, hcnt⟩ := ih (addNavPropertyAt m key p.1 _) hrest
        refine ⟨m2, hok, ?_, ?_⟩
        · intro k
          rw [hhas k]
          simp [addNavPropertyAt, updateDeclAt_mapHas]
        · intro k
          rw [hcnt k]
          simp [addNavPropertyAt, updateDeclAt_countKey]
      · rw [if_neg hnav]
        obtain ⟨m2, hok, hhas, hcnt⟩ := ih (addPropertyAt m key p.1 _ p.2.nullable) hrest
        refine ⟨m2, hok, ?_, ?_⟩
        · intro k
          rw [hhas k]
          simp [addPropertyAt, updateDeclAt_mapHas]
        · intro k
          rw [hcnt k]
          simp [addPropertyAt, updateDeclAt_countKey]
    · rw [Bool.not_eq_true] at hinc
      rw [hinc]
      simp only [if_false]
      exact ih m hrest

/-- Single-navigation step of the property loop. -/
theorem addPropsWith_nav_single
    (resolve : Model → EdmTypeRefData → Except GenError (Model × Option TypeReference))
    (options : GeneratorOptions) (fullName key navName : String) (r : EdmTypeRefData)
    (m m2 : Model) (tr : TypeReference)
    (hinc : isIncludeObject (fullName ++ "." ++ navName) options = true)
    (hres : resolve m r = .ok (m2, some tr)) :
    addPropsWith resolve options fullName key true [(navName, r)] m
      = .ok (addNavPropertyAt m2 key navName tr) := by
  rw [addPropsWith, hinc]
  simp only [if_true, hres, Bind.bind, Except.bind]
  rfl

/-- Composition of the two property loops and the comment write. -/
theorem initEntityTypeWith_ok
    (resolve : Model → EdmTypeRefData → Except GenError (Model × Option TypeReference))
    (options : GeneratorOptions) (t : EdmTypeData) (key : String) (m ma m2 : Model)
    (h1 : addPropsWith resolve options t.qualifiedName key false t.properties m = .ok ma)
    (h2 : addPropsWith resolve options t.qualifiedName key true t.navProperties ma = .ok m2) :
    initEntityTypeWith resolve options t key m
      = .ok (setCommentAt m2 key (some t.qualifiedName)) := by
  unfold initEntityTypeWith
  rw [h1]
  simp only [Bind.bind, Except.bind]
  rw [h2]

theorem setCommentAt_mapHas (m : Model) (key k : String) (c : Option String) :
    mapHas (setCommentAt m key c).typeMap k = mapHas m.typeMap k := by
  simp [setCommentAt, updateDeclAt_mapHas]

theorem setCommentAt_countKey (m : Model) (key k : String) (c : Option String) :
    countKey (setCommentAt m key c).typeMap k = countKey m.typeMap k := by
  simp [setCommentAt, updateDeclAt_countKey]

theorem addNavPropertyAt_mapHas (m : Model) (key pn k : String) (tr : TypeReference) :
    mapHas (addNavPropertyAt m key pn tr).typeMap k = mapHas m.typeMap k := by
  simp [addNavPropertyAt, updateDeclAt_mapHas]

theorem addNavPropertyAt_countKey (m : Model) (key pn k : String) (tr : TypeReference) :
    countKey (addNavPropertyAt m key pn tr).typeMap k = countKey m.typeMap k := by
  simp [addNavPropertyAt, updateDeclAt_countKey]

/-! ## Cyclic construction (claim C3) -/

/-- Claim C3: for every metadata graph containing the cyclic navigation
shape (entity `A` whose navigation property references `B` and entity `B`
whose navigation property references `A`, with otherwise primitive-typed
properties), resolving a reference to `A` with unfiltered options
terminates — any fuel of at least 3 suffices, because `getOrAddType`
registers the placeholder before running the initializer, so the re-entrant
lookup of `A` during the population of `B` hits the placeholder and stops —
and the finished registry holds exactly one declaration for `A` and exactly
one for `B`. -/
theorem cyclicNav_construction_terminates
    (md : ApiMetadata) (a b : EdmTypeData)
    (navA navB : String) (ra rb : EdmTypeRefData) (qra qrb : TypeNameRef)
    (m : Model) (fuel : Nat)
    (ha : md.findType a.qualifiedName = some a)
    (hb : md.findType b.qualifiedName = some b)
    (hne : a.qualifiedName ≠ b.qualifiedName)
    (hka : a.kind = .entity) (hkb : b.kind = .entity)
    (hpa : ∀ p ∈ a.properties, ∃ s, p.2.type = EdmTypeId.prim s)
    (hpb : ∀ p ∈ b.properties, ∃ s, p.2.type = EdmTypeId.prim s)
    (hnavA : a.navProperties = [(navA, ra)]) (hra : ra.type = .named qra)
    (hqa : qra.qname = b.qualifiedName)
    (hnavB : b.navProperties = [(navB, rb)]) (hrb : rb.type = .named qrb)
    (hqb : qrb.qname = a.qualifiedName)
    (hma : mapHas m.typeMap a.qualifiedName = false)
    (hmb : mapHas m.typeMap b.qualifiedName = false)
    (hfuel : 3 ≤ fuel) :
    ∃ m2, getTypeReference fuel md {} m
        { type := .named { qname := a.qualifiedName, name := a.name } }
        = .ok (m2, some { type := .declKey a.qualifiedName, isArray := false })
      ∧ countKey m2.typeMap a.qualifiedName = 1
      ∧ countKey m2.typeMap b.qualifiedName = 1 := by
  obtain ⟨k, rfl⟩ : ∃ k, fuel = k + 3 := ⟨fuel - 3, by omega⟩
  have hga_none : mapGet m.typeMap a.qualifiedName = none := (mapGet_none_iff _ _).mpr hma
  -- the model with the placeholder for A registered
  have hm1map : ({ m with typeMap := mapSet m.typeMap a.qualifiedName (newDeclarationFor a) }
      : Model).typeMap = m.typeMap ++ [(a.qualifiedName, newDeclarationFor a)] := by
    simp [mapSet_not_has m.typeMap _ _ hma]
  -- primitive properties of A
  obtain ⟨ma, hila, hhasa, hcnta⟩ := addPropsWith_prim (k + 1) md {} a.qualifiedName
    a.qualifiedName false a.properties
    { m with typeMap := mapSet m.typeMap a.qualifiedName (newDeclarationFor a) } hpa
  have hba : b.qualifiedName ≠ a.qualifiedName := fun h => hne h.symm
  have hhasa_ma : mapHas ma.typeMap a.qualifiedName = true := by
    rw [hhasa, hm1map, mapHas_append]
    simp [mapHas]
  have hmb_ma : mapHas ma.typeMap b.qualifiedName = false := by
    rw [hhasa, hm1map, mapHas_append, hmb]
    simp [mapHas, hne]
  have hgb_none : mapGet ma.typeMap b.qualifiedName = none := (mapGet_none_iff _ _).mpr hmb_ma
  -- the model with the placeholder for B registered
  have hm3map : ({ ma with typeMap := mapSet ma.typeMap b.qualifiedName (newDeclarationFor b) }
      : Model).typeMap = ma.typeMap ++ [(b.qualifiedName, newDeclarationFor b)] := by
    simp [mapSet_not_has ma.typeMap _ _ hmb_ma]
  -- primitive properties of B
  obtain ⟨mb, hilb, hhasb, hcntb⟩ := addPropsWith_prim k md {} b.qualifiedName
    b.qualifiedName false b.properties
    { ma with typeMap := mapSet ma.typeMap b.qualifiedName (newDeclarationFor b) } hpb
  have hhasa_mb : mapHas mb.typeMap a.qualifiedName = true := by
    rw [hhasb, hm3map, mapHas_append, hhasa_ma]
    simp
  -- the re-entrant lookup of A from inside the population of B hits
  obtain ⟨da, hda⟩ := mapGet_some_of_has mb.typeMap a.qualifiedName hhasa_mb
  have hres_hit : getTypeReference (k + 1) md {} mb rb
      = .ok (mb, some { type := .declKey a.qualifiedName, isArray := rb.collection }) := by
    refine getTypeReference_entity k md {} mb rb qrb a mb da hrb
      (isIncludeObject_default _) ?_ hka ?_
    · rw [hqb]; exact ha
    · exact getOrAddType_hit mb a _ da (by rw [hda])
  -- navigation loop of B
  have hnavloop_b : addPropsWith (getTypeReference (k + 1) md {}) {} b.qualifiedName
      b.qualifiedName true b.navProperties mb
      = .ok (addNavPropertyAt mb b.qualifiedName navB
          { type := .declKey a.qualifiedName, isArray := rb.collection }) := by
    rw [hnavB]
    exact addPropsWith_nav_single _ {} _ _ navB rb mb mb _ (isIncludeObject_default _) hres_hit
  have hinitb : initEntityTypeWith (getTypeReference (k + 1) md {}) {} b b.qualifiedName
      { ma with typeMap := mapSet ma.typeMap b.qualifiedName (newDeclarationFor b) }
      = .ok (setCommentAt (addNavPropertyAt mb b.qualifiedName navB
          { type := .declKey a.qualifiedName, isArray := rb.collection })
          b.qualifiedName (some b.qualifiedName)) :=
    initEntityTypeWith_ok _ {} b b.qualifiedName _ mb _ hilb hnavloop_b
  have hgab : Model.getOrAddType ma b
      (initEntityTypeWith (getTypeReference (k + 1) md {}) {} b b.qualifiedName)
      = .ok (setCommentAt (addNavPropertyAt mb b.qualifiedName navB
          { type := .declKey a.qualifiedName, isArray := rb.collection })
          b.qualifiedName (some b.qualifiedName),
        (mapGet (setCommentAt (addNavPropertyAt mb b.qualifiedName navB
          { type := .declKey a.qualifiedName, isArray := rb.collection })
          b.qualifiedName (some b.qualifiedName)).typeMap b.qualifiedName).getD
          (newDeclarationFor b)) :=
    getOrAddType_miss ma b _ _ hgb_none hinitb
  -- resolving A's navigation reference to B
  have hres_b : getTypeReference (k + 2) md {} ma ra
      = .ok (setCommentAt (addNavPropertyAt mb b.qualifiedName navB
          { type := .declKey a.qualifiedName, isArray := rb.collection })
          b.qualifiedName (some b.qualifiedName),
        some { type := .declKey b.qualifiedName, isArray := ra.collection }) := by
    refine getTypeReference_entity (k + 1) md {} ma ra qra b _ _ hra
      (isIncludeObject_default _) ?_ hkb hgab
    rw [hqa]; exact hb
  -- navigation loop of A
  have hnavloop_a : addPropsWith (getTypeReference (k + 2) md {}) {} a.qualifiedName
      a.qualifiedName true a.navProperties ma
      = .ok (addNavPropertyAt (setCommentAt (addNavPropertyAt mb b.qualifiedName navB
          { type := .declKey a.qualifiedName, isArray := rb.collection })
          b.qualifiedName (some b.qualifiedName)) a.qualifiedName navA
          { type := .declKey b.qualifiedName, isArray := ra.collection }) := by
    rw [hnavA]
    exact addPropsWith_nav_single _ {} _ _ navA ra ma _ _ (isIncludeObject_default _) hres_b
  have hinita : initEntityTypeWith (getTypeReference (k + 2) md {}) {} a a.qualifiedName
      { m with typeMap := mapSet m.typeMap a.qualifiedName (newDeclarationFor a) }
      = .ok (setCommentAt (addNavPropertyAt (setCommentAt (addNavPropertyAt mb b.qualifiedName navB
          { type := .declKey a.qualifiedName, isArray := rb.collection })
          b.qualifiedName (some b.qualifiedName)) a.qualifiedName navA
          { type := .declKey b.qualifiedName, isArray := ra.collection })
          a.qualifiedName (some a.qualifiedName)) :=
    initEntityTypeWith_ok _ {} a a.qualifiedName _ ma _ hila hnavloop_a
  have hgaa : Model.getOrAddType m a
      (initEntityTypeWith (getTypeReference (k + 2) md {}) {} a a.qualifiedName)
      = .ok (setCommentAt (addNavPropertyAt (setCommentAt (addNavPropertyAt mb b.qualifiedName navB
          { type := .declKey a.qualifiedName, isArray := rb.collection })
          b.qualifiedName (some b.qualifiedName)) a.qualifiedName navA
          { type := .declKey b.qualifiedName, isArray := ra.collection })
          a.qualifiedName (some a.qualifiedName),
        (mapGet (setCommentAt (addNavPropertyAt (setCommentAt (addNavPropertyAt mb
          b.qualifiedName navB
          { type := .declKey a.qualifiedName, isArray := rb.collection })
          b.qualifiedName (some b.qualifiedName)) a.qualifiedName navA
          { type := .declKey b.qualifiedName, isArray := ra.collection })
          a.qualifiedName (some a.qualifiedName)).typeMap a.qualifiedName).getD
          (newDeclarationFor a)) :=
    getOrAddType_miss m a _ _ hga_none hinita
  refine ⟨setCommentAt (addNavPropertyAt (setCommentAt (addNavPropertyAt mb b.qualifiedName navB
      { type := .declKey a.qualifiedName, isArray := rb.collection })
      b.qualifiedName (some b.qualifiedName)) a.qualifiedName navA
      { type := .declKey b.qualifiedName, isArray := ra.collection })
      a.qualifiedName (some a.qualifiedName), ?_, ?_, ?_⟩
  · exact getTypeReference_entity (k + 2) md {} m _ { qname := a.qualifiedName, name := a.name }
      a _ _ rfl (isIncludeObject_default _) ha hka hgaa
  · rw [setCommentAt_countKey, addNavPropertyAt_countKey, setCommentAt_countKey,
      addNavPropertyAt_countKey, hcntb, hm3map, countKey_append, countKey_single,
      hcnta, hm1map, countKey_append, countKey_single]
    rw [(mapHas_false_iff m.typeMap a.qualifiedName).mp hma]
    simp [hne, hba]
  · rw [setCommentAt_countKey, addNavPropertyAt_countKey, setCommentAt_countKey,
      addNavPropertyAt_countKey, hcntb, hm3map, countKey_append, countKey_single,
      hcnta, hm1map, countKey_append, countKey_single]
    rw [(mapHas_false_iff m.typeMap b.qualifiedName).mp hmb]
    simp [hne, hba]

/-! ## Concrete scenarios -/

/-- Entity `NS.A`, one primitive property, one navigation property to `NS.B`. -/
def entA : EdmTypeData :=
  { qualifiedName := "NS.A", name := "A", kind := .entity,
    properties := [("Id", { type := .prim "Edm.Int32" })],
    navProperties := [("ToB", { type := .named { qname := "NS.B", name := "B" } })] }

/-- Entity `NS.B`, one primitive property, one navigation property to `NS.A`. -/
def entB : EdmTypeData :=
  { qualifiedName := "NS.B", name := "B", kind := .entity,
    properties := [("Id", { type := .prim "Edm.Int32" })],
    navProperties := [("ToA", { type := .named { qname := "NS.A", name := "A" } })] }

/-- Cyclic two-entity metadata graph. -/
def mdAB : ApiMetadata := { types := [entA, entB] }

/-- Bound action `DoThing` on entity `A`. -/
def opDoA : OperationMetadata :=
  { name := "DoThing", qualifiedName := "NS.DoThingA", isAction := true,
    bindingTo := some { target := { qname := "NS.A", name := "A" } } }

/-- Bound action `DoThing` on entity `B`. -/
def opDoB : OperationMetadata :=
  { name := "DoThing", qualifiedName := "NS.DoThingB", isAction := true,
    bindingTo := some { target := { qname := "NS.B", name := "B" } } }

/-- Metadata with two entities each carrying one bound action. -/
def mdOps : ApiMetadata := { types := [entA, entB], operations := [opDoA, opDoB] }

/-- Entity `NS.X` with a navigation property to `NS.Foo`. -/
def entX : EdmTypeData :=
  { qualifiedName := "NS.X", name := "X", kind := .entity,
    navProperties := [("F", { type := .named { qname := "NS.Foo", name := "Foo" } })] }

/-- Entity `NS.Foo`, the type to be excluded. -/
def entFoo : EdmTypeData :=
  { qualifiedName := "NS.Foo", name := "Foo", kind := .entity,
    properties := [("P", { type := .prim "Edm.String" })] }

/-- Metadata for the exclusion scenario. -/
def mdXFoo : ApiMetadata := { types := [entX, entFoo] }

/-- Options excluding `NS.Foo` with no include list. -/
def optsExFoo : GeneratorOptions := { excludeOpt := some [.lit "NS.Foo"] }

/-! ## Claim theorems -/

/-- Claim C1, amended: a name passes the filter iff (the include option is
absent, or some include pattern matches the name) and no exclude pattern
matches the name; exclude always wins over include; with the include option
absent and no exclusions every name is included.  (The amendment replaces
"the include list is empty" by "the include option is absent": a present
but empty include list is truthy in JS and rejects every name, see the
counterexample.) -/
theorem isIncludeObject_filter_semantics (name : String) (options : GeneratorOptions) :
    (isIncludeObject name options = true ↔
      ((options.includeOpt = none
          ∨ ∃ l, options.includeOpt = some l ∧ ∃ p ∈ l, isMatch name p = true)
        ∧ ¬ ∃ l, options.excludeOpt = some l ∧ ∃ p ∈ l, isMatch name p = true))
    ∧ ((∃ l, options.excludeOpt = some l ∧ ∃ p ∈ l, isMatch name p = true) →
        isIncludeObject name options = false)
    ∧ (options.includeOpt = none → options.excludeOpt = none →
        isIncludeObject name options = true) := by
  obtain ⟨imp, inc, exc, acn, acb⟩ := options
  refine ⟨?_, ?_, ?_⟩
  · cases inc <;> cases exc <;>
      simp [isIncludeObject, isExclude, List.any_eq_true]
  · rintro ⟨l, hl, p, hp, hm⟩
    cases inc <;>
      simp_all [isIncludeObject, isExclude, List.any_eq_true] <;>
      first
        | exact ⟨p, hp, hm⟩
        | exact fun x _ _ => ⟨p, hp, hm⟩
  · rintro rfl rfl
    rfl

/-- Claim C1 counterexample: an explicitly empty include list with no
exclude option rejects the name, although the claim as stated says an empty
include list with no exclusions includes every name. -/
theorem isIncludeObject_emptyIncludeList_counterexample :
    isIncludeObject "NS.Foo" { includeOpt := some [] } = false
    ∧ ({ includeOpt := some [] } : GeneratorOptions).excludeOpt = none :=
  ⟨rfl, rfl⟩

/-- Witness for claim C1 at concrete inputs: exclude wins over a matching
include pattern. -/
theorem isIncludeObject_filter_semantics_witness :
    isIncludeObject "NS.Foo"
      { includeOpt := some [Pattern.lit "NS.Foo"],
        excludeOpt := some [Pattern.lit "NS.Foo"] } = false :=
  (isIncludeObject_filter_semantics "NS.Foo" _).2.1
    ⟨[Pattern.lit "NS.Foo"], rfl, Pattern.lit "NS.Foo", by decide, by decide⟩

/-- Claim C2: a registry hit returns the already-registered declaration
with the model unchanged, for an arbitrary (hence never-invoked)
initializer; a successful `getOrAddType` whose initializer preserves the
registry invariant always leaves the qualified name registered; and after
any successful resolution starting from a registry with unique keys, every
registered qualified name has exactly one declaration. -/
theorem getOrAddType_idempotent_dedup :
    (∀ (m : Model) (t : EdmTypeData) (init : Model → Except GenError Model)
       (d : TypeDeclaration),
       mapGet m.typeMap t.qualifiedName = some d →
       Model.getOrAddType m t init = .ok (m, d))
    ∧ (∀ (m : Model) (t : EdmTypeData) (init : Model → Except GenError Model)
         (m2 : Model) (d : TypeDeclaration),
         (∀ m0 m1, init m0 = .ok m1 → RegistryStep m0 m1) →
         Model.getOrAddType m t init = .ok (m2, d) →
         mapHas m2.typeMap t.qualifiedName = true)
    ∧ (∀ (fuel : Nat) (md : ApiMetadata) (options : GeneratorOptions) (m : Model)
         (r : EdmTypeRefData) (m2 : Model) (tr : Option TypeReference),
         getTypeReference fuel md options m r = .ok (m2, tr) →
         UniqKeys m →
         ∀ qn, mapHas m2.typeMap qn = true → countKey m2.typeMap qn = 1) := by
  refine ⟨fun m t init d h => getOrAddType_hit m t init d h, ?_, ?_⟩
  · intro m t init m2 d hinit h
    rcases getOrAddType_ok_cases m t init m2 d h with ⟨hg, rfl⟩ | ⟨hg, hi⟩
    · exact mapHas_of_get_some _ _ _ hg
    · have hstart : mapHas ({ m with
          typeMap := mapSet m.typeMap t.qualifiedName (newDeclarationFor t) } : Model).typeMap
          t.qualifiedName = true := by
        show mapHas (mapSet m.typeMap t.qualifiedName (newDeclarationFor t)) t.qualifiedName = true
        rw [mapSet_not_has _ _ _ ((mapGet_none_iff _ _).mp hg), mapHas_append]
        simp [mapHas]
      exact (hinit _ _ hi).1 t.qualifiedName hstart
  · intro fuel md options m r m2 tr h hu qn hhas
    have h1 := (getTypeReference_registryStep fuel md options m r m2 tr h).2 hu qn
    have h2 := mapHas_true_count _ _ hhas
    omega

/-- Witness for claim C2 at concrete inputs: resolving `NS.A` twice returns
the identical declaration without re-running any initializer, and the
cyclic graph yields uniquely keyed declarations. -/
theorem getOrAddType_idempotent_dedup_witness :
    (∀ init, Model.getOrAddType
        { typeMap := [("NS.A", .enumDecl { name := "A" })] } entA init
        = .ok ({ typeMap := [("NS.A", .enumDecl { name := "A" })] },
               .enumDecl { name := "A" }))
    ∧ (∃ m2 tr, getTypeReference 10 mdAB {} {}
          { type := .named { qname := "NS.A", name := "A" } } = .ok (m2, tr)
        ∧ countKey m2.typeMap "NS.A" = 1) := by
  constructor
  · intro init
    exact (getOrAddType_idempotent_dedup.1 _ entA init _ rfl)
  · refine ⟨_, _, rfl, ?_⟩
    exact getOrAddType_idempotent_dedup.2.2 10 mdAB {} {}
      { type := .named { qname := "NS.A", name := "A" } } _ _ rfl
      (fun k => by simp [countKey]) "NS.A" (by decide)

/-- Witness for claim C3 at concrete inputs: the two-entity cyclic graph
`NS.A` and `NS.B` resolves from the empty model at fuel 10. -/
theorem cyclicNav_construction_terminates_witness :
    ∃ m2, getTypeReference 10 mdAB {} {}
        { type := .named { qname := "NS.A", name := "A" } }
        = .ok (m2, some { type := .declKey "NS.A", isArray := false })
      ∧ countKey m2.typeMap "NS.A" = 1 ∧ countKey m2.typeMap "NS.B" = 1 := by
  have h := cyclicNav_construction_terminates mdAB entA entB "ToB" "ToA"
    { type := .named { qname := "NS.B", name := "B" } }
    { type := .named { qname := "NS.A", name := "A" } }
    { qname := "NS.B", name := "B" } { qname := "NS.A", name := "A" }
    {} 10 rfl rfl (by decide) rfl rfl
    (by rintro p hp; simp [entA] at hp; rw [hp]; exact ⟨"Edm.Int32", rfl⟩)
    (by rintro p hp; simp [entB] at hp; rw [hp]; exact ⟨"Edm.Int32", rfl⟩)
    rfl rfl rfl rfl rfl rfl rfl rfl (by omega)
  exact h

/-- Claim C4 (the code contradicts the intended escaping): the literal
pattern `NS.Foo` matches the value `NSxFoo`, although the two strings are
not case-insensitively equal, because generator.ts:55 replaces the first
`.` of the pattern with `\.` written as the plain character `.` — escaping
nothing — so every `.` of a literal pattern acts as the regex wildcard.
The anchored and case-insensitive parts of the claim do hold: a prefixed or
suffixed value does not match, and a case-flipped value does. -/
theorem literalPattern_dot_unescaped_bug :
    isMatch "NSxFoo" (Pattern.lit "NS.Foo") = true
    ∧ matchFull true ("NS.Foo".data.map RChar.ch) "NSxFoo".data = false
    ∧ isMatch "ns.foo" (Pattern.lit "NS.Foo") = true
    ∧ matchFull true ("NS.Foo".data.map RChar.ch) "ns.foo".data = true
    ∧ isMatch "XNS.Foo" (Pattern.lit "NS.Foo") = false
    ∧ isMatch "NS.FooY" (Pattern.lit "NS.Foo") = false := by
  refine ⟨by decide, by decide, by decide, by decide, by decide, by decide⟩

/-- Claim C5: `addMember` succeeds exactly when the name is non-empty, the
value is truthy, and no existing member has the same name or a loosely
equal value; on success the pair is appended at the end (call order is
preserved); the error outcome leaves no modified declaration behind.  The
`Red 1, Green 2` enum builds exactly those two members in order, and adding
a third member named `Red` or valued `1` raises. -/
theorem enum_addMember_spec :
    (∀ (d : EnumDeclaration) (name : String) (value : EnumValue),
      exceptOk? (EnumDeclaration.addMember d name value) =
        if name = "" ∨ jsFalsy value = true
            ∨ ∃ mem ∈ d.members, mem.1 = name ∨ jsEqValue mem.2 value = true
        then none
        else some { d with members := d.members ++ [(name, value)] })
    ∧ (∃ d1, EnumDeclaration.addMember { name := "Color" } "Red" (.num 1) = .ok d1
        ∧ ∃ d2, EnumDeclaration.addMember d1 "Green" (.num 2) = .ok d2
          ∧ d2.members = [("Red", .num 1), ("Green", .num 2)]
          ∧ exceptOk? (EnumDeclaration.addMember d2 "Red" (.num 3)) = none
          ∧ exceptOk? (EnumDeclaration.addMember d2 "Blue" (.num 1)) = none) := by
  constructor
  · intro d name value
    by_cases h1 : name = ""
    · simp [EnumDeclaration.addMember, exceptOk?, h1]
    · by_cases h2 : jsFalsy value = true
      · simp [EnumDeclaration.addMember, exceptOk?, h1, h2]
      · by_cases h3 : d.members.any (fun v => v.1 = name || jsEqValue v.2 value) = true
        · rw [if_pos]
          · simp [EnumDeclaration.addMember, exceptOk?, h1, h2, h3]
          · refine Or.inr (Or.inr ?_)
            simpa [List.any_eq_true] using h3
        · rw [if_neg]
          · simp [EnumDeclaration.addMember, exceptOk?, h1, h2, h3]
          · rw [Bool.not_eq_true] at h3
            push_neg
            refine ⟨h1, by simpa using h2, ?_⟩
            intro mem hmem
            have h4 := (List.any_eq_false).mp h3 mem hmem
            simp at h4
            exact ⟨h4.1, by simp [h4.2]⟩
  · exact ⟨_, rfl, _, rfl, rfl, rfl, rfl⟩

/-! ## Preservation through the operation binder -/

theorem writeIface_mapHas (m : Model) (target : DeclTarget) (d : InterfaceDeclaration)
    (k : String) : mapHas (Model.writeIface m target d).typeMap k = mapHas m.typeMap k := by
  cases target with
  | context => rfl
  | mapKey k2 => simp [Model.writeIface, updateDeclAt_mapHas]

theorem writeIface_countKey (m : Model) (target : DeclTarget) (d : InterfaceDeclaration)
    (k : String) : countKey (Model.writeIface m target d).typeMap k = countKey m.typeMap k := by
  cases target with
  | context => rfl
  | mapKey k2 => simp [Model.writeIface, updateDeclAt_countKey]

theorem registryStep_writeIface (m : Model) (target : DeclTarget)
    (d : InterfaceDeclaration) : RegistryStep m (Model.writeIface m target d) :=
  ⟨fun k h => by rw [writeIface_mapHas]; exact h,
   fun hu k => by rw [writeIface_countKey]; exact hu k⟩

theorem registryStep_pushMethodAt (m : Model) (k : String) (meth : MethodDeclaration) :
    RegistryStep m (pushMethodAt m k meth) := by
  unfold pushMethodAt
  exact registryStep_updateDeclAt m k _

/-- `addType` succeeds exactly on a fresh key, appending one entry. -/
theorem addType_ok_iff (m : Model) (t : TypeDeclaration) (m2 : Model) :
    Model.addType m t = .ok m2 ↔
      (mapHas m.typeMap t.name = false
        ∧ m2 = { m with typeMap := m.typeMap ++ [(t.name, t)] }) := by
  unfold Model.addType
  by_cases h : mapHas m.typeMap t.name = true
  · simp [h]
  · rw [Bool.not_eq_true] at h
    simp [h, mapSet_not_has m.typeMap t.name t h, eq_comm]

theorem addType_registryStep (m : Model) (t : TypeDeclaration) (m2 : Model)
    (h : Model.addType m t = .ok m2) : RegistryStep m m2 := by
  obtain ⟨hfresh, rfl⟩ := (addType_ok_iff m t m2).mp h
  have step := registryStep_insert_fresh m t.name t hfresh
  rwa [mapSet_not_has _ _ _ hfresh] at step

theorem getOperTypeRef_registryStep (slot : Option TypeReference)
    (operation : OperationMetadata) (m m2 : Model) (tr : TypeReference)
    (h : getOperTypeRef slot operation m = .ok (m2, tr)) : RegistryStep m m2 := by
  unfold getOperTypeRef at h
  cases slot with
  | some tr0 => simp at h; rw [← h.1]; exact RegistryStep.refl m
  | none =>
    simp only at h
    cases ha : Model.addType m (.opInterfaceDecl
        { name := "_" ++ (match operation.bindingTo with
            | some b => jsOrStr b.target.name
                (match m.contextDeclaration with | some c => c.name | none => "")
            | none => (match m.contextDeclaration with | some c => c.name | none => ""))
          ++ (match operation.bindingTo with
              | some b => if b.collection then "EntitySet" else ""
              | none => "")
          ++ (if operation.isAction then "Actions" else "Functions"), isExport := true }) with
    | error e => rw [ha] at h; simp [Bind.bind, Except.bind] at h
    | ok mi =>
      rw [ha] at h
      simp [Bind.bind, Except.bind] at h
      rw [← h.1]
      exact addType_registryStep m _ mi ha

theorem resolveParams_registryStep (fuel : Nat) (md : ApiMetadata)
    (options : GeneratorOptions) :
    ∀ (ps : List (String × EdmTypeRefData)) (m m2 : Model) (out : List MethodParameter),
      resolveParams fuel md options ps m = .ok (m2, out) → RegistryStep m m2 := by
  intro ps
  induction ps with
  | nil =>
    intro m m2 out h
    simp [resolveParams] at h
    rw [← h.1]
    exact RegistryStep.refl m
  | cons p rest ih =>
    intro m m2 out h
    rw [resolveParams] at h
    cases h1 : getTypeReference fuel md options m p.2 with
    | error e => rw [h1] at h; simp [Bind.bind, Except.bind] at h
    | ok pair1 =>
      rw [h1] at h
      simp only [Bind.bind, Except.bind] at h
      obtain ⟨ma, trOpt⟩ := pair1
      cases h2 : resolveParams fuel md options rest ma with
      | error e => rw [h2] at h; simp at h
      | ok pair2 =>
        rw [h2] at h
        simp at h
        obtain ⟨mb, tail⟩ := pair2
        have s1 := getTypeReference_registryStep fuel md options m p.2 ma trOpt h1
        have s2 := ih ma mb tail h2
        simp at h
        rw [← h.1]
        exact RegistryStep.trans s1 s2

theorem resolveReturnType_registryStep (fuel : Nat) (md : ApiMetadata)
    (options : GeneratorOptions) (rt? : Option EdmTypeRefData) (m m2 : Model)
    (out : Option TypeReference)
    (h : resolveReturnType fuel md options rt? m = .ok (m2, out)) : RegistryStep m m2 := by
  unfold resolveReturnType at h
  cases rt? with
  | none => simp at h; rw [← h.1]; exact RegistryStep.refl m
  | some rt => exact getTypeReference_registryStep fuel md options m rt m2 out h

theorem generateOperationCore_registryStep (fuel : Nat) (operation : OperationMetadata)
    (md : ApiMetadata) (options : GeneratorOptions) (isSetBinded : Bool)
    (target : DeclTarget) (m m2 : Model)
    (h : generateOperationCore fuel operation md options isSetBinded target m = .ok m2) :
    RegistryStep m m2 := by
  unfold generateOperationCore at h
  cases hri : Model.readIface m target with
  | none => rw [hri] at h; simp at h; rw [← h]; exact RegistryStep.refl m
  | some d0 =>
    rw [hri] at h
    simp only at h
    cases h1 : getOperTypeRef
        (selectSlot (d0.operationsRef.getD {}) isSetBinded operation.isAction) operation
        (Model.writeIface m target { d0 with operationsRef := some (d0.operationsRef.getD {}) }) with
    | error e => rw [h1] at h; simp [Bind.bind, Except.bind] at h
    | ok pair1 =>
      obtain ⟨m2a, operTypeRef⟩ := pair1
      rw [h1] at h
      simp only [Bind.bind, Except.bind] at h
      have s0 : RegistryStep m _ := registryStep_writeIface m target
        { d0 with operationsRef := some (d0.operationsRef.getD {}) }
      have s1 := getOperTypeRef_registryStep _ operation _ m2a operTypeRef h1
      have s2 : RegistryStep m2a (Model.writeIface m2a target
          { d0 with
            operationsRef := some (storeSlot (d0.operationsRef.getD {}) isSetBinded
              operation.isAction operTypeRef) }) :=
        registryStep_writeIface _ _ _
      cases h2 : resolveReturnType fuel md options operation.returnType
          (Model.writeIface m2a target
            { d0 with
              operationsRef := some (storeSlot (d0.operationsRef.getD {}) isSetBinded
                operation.isAction operTypeRef) }) with
      | error e => rw [h2] at h; simp at h
      | ok pair2 =>
        obtain ⟨m4, returnType⟩ := pair2
        rw [h2] at h
        simp only at h
        cases h3 : resolveParams fuel md options operation.parameters m4 with
        | error e => rw [h3] at h; simp at h
        | ok pair3 =>
          obtain ⟨m5, params⟩ := pair3
          rw [h3] at h
          simp only at h
          have s3 := resolveReturnType_registryStep fuel md options operation.returnType _ m4
            returnType h2
          have s4 := resolveParams_registryStep fuel md options operation.parameters m4 m5 params h3
          have sAll : RegistryStep m m5 :=
            RegistryStep.trans (RegistryStep.trans s0 s1)
              (RegistryStep.trans s2 (RegistryStep.trans s3 s4))
          cases htt : operTypeRef.type with
          | declKey kk =>
            rw [htt] at h
            simp at h
            rw [← h]
            exact RegistryStep.trans sAll (registryStep_pushMethodAt m5 kk _)
          | str ss =>
            rw [htt] at h
            simp at h
            rw [← h]
            exact sAll

theorem generateOperation_registryStep (fuel : Nat) (operation : OperationMetadata)
    (md : ApiMetadata) (options : GeneratorOptions) (m m2 : Model)
    (h : generateOperation fuel operation md options m = .ok m2) : RegistryStep m m2 := by
  unfold generateOperation at h
  cases hb : operation.bindingTo with
  | none =>
    rw [hb] at h
    cases hc : m.contextDeclaration with
    | none => rw [hc] at h; simp at h; rw [← h]; exact RegistryStep.refl m
    | some c =>
      rw [hc] at h
      exact generateOperationCore_registryStep fuel operation md options false .context m m2 h
  | some b =>
    rw [hb] at h
    simp only at h
    by_cases hinc : isIncludeObject b.target.qname options = true
    · simp only [hinc, Bool.not_true, Bool.false_eq_true, if_false] at h
      cases hft : md.findType b.target.qname with
      | none => rw [hft] at h; simp at h; rw [← h]; exact RegistryStep.refl m
      | some t =>
        rw [hft] at h
        simp only at h
        cases hga : Model.getOrAddType m t
            (initEntityTypeWith (getTypeReference fuel md options) options t t.qualifiedName) with
        | error e => rw [hga] at h; simp [Bind.bind, Except.bind] at h
        | ok pair =>
          obtain ⟨m1, d⟩ := pair
          rw [hga] at h
          simp only [Bind.bind, Except.bind] at h
          have s1 := getOrAddType_registryStep m t _ m1 d
            (fun m0 mo ho => initEntityTypeWith_registryStep _ options t t.qualifiedName m0 mo
              (fun ma rr mb trr hbb =>
                getTypeReference_registryStep fuel md options ma rr mb trr hbb) ho) hga
          exact RegistryStep.trans s1
            (generateOperationCore_registryStep fuel operation md options _
              (.mapKey t.qualifiedName) m1 m2 h)
    · rw [Bool.not_eq_true] at hinc
      simp only [hinc, Bool.not_false, if_true] at h
      have hmm : m = m2 := by injection h
      rw [← hmm]
      exact RegistryStep.refl m

theorem generateOperationsLoop_registryStep (fuel : Nat) (md : ApiMetadata)
    (options : GeneratorOptions) :
    ∀ (ops : List OperationMetadata) (m m2 : Model),
      generateOperationsLoop fuel md options ops m = .ok m2 → RegistryStep m m2 := by
  intro ops
  induction ops with
  | nil => intro m m2 h; simp [generateOperationsLoop] at h; rw [← h]; exact RegistryStep.refl m
  | cons op rest ih =>
    intro m m2 h
    rw [generateOperationsLoop] at h
    by_cases hinc : isIncludeObject op.qualifiedName options = true
    · rw [hinc] at h
      simp only [if_true] at h
      cases h1 : generateOperation fuel op md options m with
      | error e => rw [h1] at h; simp [Bind.bind, Except.bind] at h
      | ok m1 =>
        rw [h1] at h
        simp only [Bind.bind, Except.bind] at h
        exact RegistryStep.trans (generateOperation_registryStep fuel op md options m m1 h1)
          (ih m1 m2 h)
    · rw [Bool.not_eq_true] at hinc
      rw [hinc] at h
      simp only [Bool.false_eq_true, if_false] at h
      exact ih m m2 h

theorem apiContextLoop_registryStep (fuel : Nat) (md : ApiMetadata)
    (options : GeneratorOptions) :
    ∀ (items : List (String × TypeNameRef × Bool)) (m : Model) (d : InterfaceDeclaration)
      (m2 : Model) (d2 : InterfaceDeclaration),
      apiContextLoop fuel md options items m d = .ok (m2, d2) → RegistryStep m m2 := by
  intro items
  induction items with
  | nil =>
    intro m d m2 d2 h
    simp [apiContextLoop] at h
    rw [← h.1]
    exact RegistryStep.refl m
  | cons it rest ih =>
    intro m d m2 d2 h
    rw [apiContextLoop] at h
    cases h1 : getTypeReference fuel md options m
        { type := .named it.2.1, nullable := false, collection := it.2.2 } with
    | error e => rw [h1] at h; simp [Bind.bind, Except.bind] at h
    | ok pair =>
      rw [h1] at h
      simp only [Bind.bind, Except.bind] at h
      obtain ⟨m1, trOpt⟩ := pair
      exact RegistryStep.trans
        (getTypeReference_registryStep fuel md options m _ m1 trOpt h1)
        (ih m1 _ m2 d2 h)

/-- Rendering never touches the registry. -/
theorem toNodeArray_typeMap (m : Model) : (Model.toNodeArray m).1.typeMap = m.typeMap := by
  unfold Model.toNodeArray
  cases m.contextDeclaration <;> rfl

theorem generate_uniqKeys (fuel : Nat) (md : ApiMetadata) (options : GeneratorOptions)
    (m2 : Model) (nodes : List Node)
    (h : generate fuel md options = .ok (m2, nodes)) : UniqKeys m2 := by
  unfold generate at h
  simp only at h
  cases h1 : generateApiContext fuel
      { imports :=
          "import \x7b ApiContext, IApiContextBase, IComplexBase, IEntityBase \x7d from \"pailingual-odata\""
            :: options.imports }
      md options with
  | error e => rw [h1] at h; simp [Bind.bind, Except.bind] at h
  | ok pair =>
    rw [h1] at h
    simp only [Bind.bind, Except.bind] at h
    obtain ⟨m1, ctx⟩ := pair
    cases h2 : generateOperations fuel md options { m1 with contextDeclaration := some ctx } with
    | error e => rw [h2] at h; simp at h
    | ok m3 =>
      rw [h2] at h
      simp at h
      have u0 : UniqKeys { imports :=
          "import \x7b ApiContext, IApiContextBase, IComplexBase, IEntityBase \x7d from \"pailingual-odata\""
            :: options.imports } := by
        intro k
        simp [countKey]
      have u1 : UniqKeys m1 := by
        unfold generateApiContext at h1
        exact (apiContextLoop_registryStep fuel md options _ _ _ _ _ h1).2 u0
      have u3 : UniqKeys m3 :=
        (generateOperationsLoop_registryStep fuel md options md.operations _ m3 h2).2
          (fun k => u1 k)
      have hm2 : m2 = (Model.toNodeArray m3).1 := (congrArg Prod.fst h).symm
      intro k
      rw [hm2]
      have := congrArg (fun tm => countKey tm k) (toNodeArray_typeMap m3)
      simp only at this
      rw [this]
      exact u3 k

theorem mapGet_append_fresh (l : TypeMap) (k : String) (v : TypeDeclaration)
    (h : mapHas l k = false) : mapGet (l ++ [(k, v)]) k = some v := by
  induction l with
  | nil => simp [mapGet, List.find?]
  | cons kv rest ih =>
    simp [mapHas] at h
    simp only [List.cons_append, mapGet, List.find?]
    rw [show (decide (kv.1 = k)) = false by simp [h.1]]
    exact ih (by simpa [mapHas] using h.2)

/-- Claim C6: `addType` fails exactly when the registry already holds the
key, otherwise appends exactly one entry (and the registry is untouched in
the error case, the result being built only on success); key uniqueness is
preserved by `addType`, and holds of the final registry of every successful
generation run started from the fresh model. -/
theorem addType_unique_registry :
    (∀ (m : Model) (t : TypeDeclaration),
      exceptOk? (Model.addType m t) =
        if mapHas m.typeMap t.name = true then none
        else some { m with typeMap := m.typeMap ++ [(t.name, t)] })
    ∧ (∀ (m : Model) (t : TypeDeclaration) (m2 : Model),
        UniqKeys m → Model.addType m t = .ok m2 → UniqKeys m2)
    ∧ (∀ (fuel : Nat) (md : ApiMetadata) (options : GeneratorOptions) (m2 : Model)
        (nodes : List Node),
        generate fuel md options = .ok (m2, nodes) → UniqKeys m2) := by
  refine ⟨?_, ?_, ?_⟩
  · intro m t
    by_cases h : mapHas m.typeMap t.name = true
    · simp [Model.addType, exceptOk?, h]
    · rw [Bool.not_eq_true] at h
      simp [Model.addType, exceptOk?, h, mapSet_not_has m.typeMap t.name t h]
  · intro m t m2 hu h
    exact (addType_registryStep m t m2 h).2 hu
  · intro fuel md options m2 nodes h
    exact generate_uniqKeys fuel md options m2 nodes h

/-- Witness for claim C6 at concrete inputs: registering a fresh key keeps
the registry uniquely keyed; re-registering an existing key errors. -/
theorem addType_unique_registry_witness :
    (∃ m2, Model.addType { typeMap := [("A", .enumDecl { name := "A" })] }
        (.enumDecl { name := "B" }) = .ok m2 ∧ UniqKeys m2)
    ∧ exceptOk? (Model.addType { typeMap := [("A", .enumDecl { name := "A" })] }
        (.enumDecl { name := "A" })) = none := by
  constructor
  · refine ⟨_, rfl, ?_⟩
    refine addType_unique_registry.2.1 { typeMap := [("A", .enumDecl { name := "A" })] }
      (.enumDecl { name := "B" }) _ ?_ rfl
    intro k
    show countKey [("A", .enumDecl { name := "A" })] k ≤ 1
    rw [countKey_single]
    by_cases hk : "A" = k <;> simp [hk]
  · rw [addType_unique_registry.1]
    rfl

/-- The synthesized operations-interface name as the spec words it: an
underscore, the binding target's short name (or the api-context
declaration's name for unbound operations), `EntitySet` only when the
binding is collection-valued, and `Actions` for actions or `Functions` for
functions. -/
def specOperIfaceName (operation : OperationMetadata) (contextName : String) : String :=
  "_" ++ (match operation.bindingTo with
          | some b => b.target.name
          | none => contextName)
      ++ (if (match operation.bindingTo with
              | some b => b.collection
              | none => false) then "EntitySet" else "")
      ++ (if operation.isAction then "Actions" else "Functions")

/-- Claim C7: the bucket interface is created lazily (an occupied slot is
returned as-is with no model change), a fresh slot registers an interface
under the spec's concatenated name and returns a reference to it, and the
concrete two-entity scenario (entities `A`, `B`, one bound action each)
produces the two distinct interfaces `_AActions` and `_BActions`, each with
exactly one method. -/
theorem operationsInterface_lazy_naming :
    (∀ (operation : OperationMetadata) (m : Model) (tr : TypeReference),
      getOperTypeRef (some tr) operation m = .ok (m, tr))
    ∧ (∀ (operation : OperationMetadata) (m m2 : Model) (tr : TypeReference)
        (ctx : InterfaceDeclaration),
        m.contextDeclaration = some ctx →
        (∀ b, operation.bindingTo = some b → b.target.name ≠ "") →
        getOperTypeRef none operation m = .ok (m2, tr) →
        tr = { type := .declKey (specOperIfaceName operation ctx.name), isArray := false }
        ∧ mapGet m2.typeMap (specOperIfaceName operation ctx.name)
            = some (.opInterfaceDecl
                { name := specOperIfaceName operation ctx.name, isExport := true, methods := [] }))
    ∧ (∃ mres, generateOperations 10 mdOps {} {} = .ok mres
        ∧ mapGet mres.typeMap "_AActions"
            = some (.opInterfaceDecl
                { name := "_AActions",
                  isExport := true,
                  methods := [{ name := "DoThing", returnType := none, parameters := [],
                                comment := some "NS.DoThingA" }] })
        ∧ mapGet mres.typeMap "_BActions"
            = some (.opInterfaceDecl
                { name := "_BActions",
                  isExport := true,
                  methods := [{ name := "DoThing", returnType := none, parameters := [],
                                comment := some "NS.DoThingB" }] })
        ∧ "_AActions" ≠ "_BActions") := by
  refine ⟨fun operation m tr => rfl, ?_, ?_⟩
  · intro operation m m2 tr ctx hctx hbn h
    unfold getOperTypeRef at h
    rw [hctx] at h
    simp only at h
    have hname : ("_" ++ (match operation.bindingTo with
        | some b => jsOrStr b.target.name ctx.name
        | none => ctx.name)
      ++ (match operation.bindingTo with
          | some b => if b.collection then "EntitySet" else ""
          | none => "")
      ++ (if operation.isAction then "Actions" else "Functions"))
        = specOperIfaceName operation ctx.name := by
      unfold specOperIfaceName
      cases hbx : operation.bindingTo with
      | none => simp
      | some b =>
        have := hbn b hbx
        simp [jsOrStr, this]
    cases ha : Model.addType m (.opInterfaceDecl
        { name := "_" ++ (match operation.bindingTo with
            | some b => jsOrStr b.target.name ctx.name
            | none => ctx.name)
          ++ (match operation.bindingTo with
              | some b => if b.collection then "EntitySet" else ""
              | none => "")
          ++ (if operation.isAction then "Actions" else "Functions"), isExport := true }) with
    | error e => rw [ha] at h; simp [Bind.bind, Except.bind] at h
    | ok mi =>
      rw [ha] at h
      simp [Bind.bind, Except.bind] at h
      obtain ⟨hfresh, hm2⟩ := (addType_ok_iff _ _ _).mp ha
      obtain ⟨hmi, htr⟩ := h
      constructor
      · rw [← htr, hname]
      · rw [← hmi, hm2, ← hname]
        exact mapGet_append_fresh _ _ _ hfresh
  · exact ⟨_, rfl, rfl, rfl, by decide⟩

/-- Witness for claim C7 at concrete inputs: a fresh slot for the bound
action on `A` creates and registers `_AActions`. -/
theorem operationsInterface_lazy_naming_witness :
    ∃ m2 tr, getOperTypeRef none opDoA
        { contextDeclaration := some { name := "Ctx", baseClass := "IApiContextBase" } }
        = .ok (m2, tr)
      ∧ tr = { type := .declKey "_AActions", isArray := false }
      ∧ mapGet m2.typeMap "_AActions"
          = some (.opInterfaceDecl { name := "_AActions", isExport := true, methods := [] }) := by
  refine ⟨_, _, rfl, ?_⟩
  have h := operationsInterface_lazy_naming.2.1 opDoA
    { contextDeclaration := some { name := "Ctx", baseClass := "IApiContextBase" } } _ _
    { name := "Ctx", baseClass := "IApiContextBase" } rfl
    (by intro b hb; cases hb; decide) rfl
  exact h

/-- Claim C8: a primitive reference resolves directly and is never
filtered; a named reference whose qualified name the filter rejects still
resolves to a reference carrying the bare short name, with the model (and
hence the registry) unchanged; concretely, excluding `NS.Foo` leaves the
included entity `NS.X` fully expanded with a bare-name navigation reference
`Foo`, while `NS.Foo` itself is never registered. -/
theorem excluded_type_bare_name_reference :
    (∀ (fuel : Nat) (md : ApiMetadata) (options : GeneratorOptions) (m : Model)
        (r : EdmTypeRefData) (s : String),
        r.type = .prim s →
        getTypeReference (fuel + 1) md options m r
          = .ok (m, some { type := .str s, isArray := r.collection }))
    ∧ (∀ (fuel : Nat) (md : ApiMetadata) (options : GeneratorOptions) (m : Model)
        (r : EdmTypeRefData) (q : TypeNameRef),
        r.type = .named q → isIncludeObject q.qname options = false → q.name ≠ "" →
        getTypeReference (fuel + 1) md options m r
          = .ok (m, some { type := .str q.name, isArray := r.collection }))
    ∧ (∃ m2, getTypeReference 10 mdXFoo optsExFoo {}
          { type := .named { qname := "NS.X", name := "X" } }
          = .ok (m2, some { type := .declKey "NS.X", isArray := false })
        ∧ mapHas m2.typeMap "NS.Foo" = false
        ∧ mapGet m2.typeMap "NS.X" = some (.interfaceDecl
            { name := "X",
              baseClass := "IEntityBase",
              properties := [],
              navigation := [{ name := "F", type := { type := .str "Foo", isArray := false },
                               isNullable := true, comment := none }],
              operationsRef := none,
              isExport := true,
              comment := some "NS.X" })) := by
  refine ⟨?_, ?_, ?_⟩
  · exact fun fuel md options m r s hr => getTypeReference_prim fuel md options m r s hr
  · exact fun fuel md options m r q hr hinc hn =>
      getTypeReference_excluded fuel md options m r q hr hinc hn
  · exact ⟨_, rfl, rfl, rfl⟩

/-- Witness for claim C8 at concrete inputs: a primitive reference and the
excluded `NS.Foo` reference both resolve without touching the model. -/
theorem excluded_type_bare_name_reference_witness :
    getTypeReference 5 mdXFoo optsExFoo {} { type := .prim "Edm.String" }
      = .ok ({}, some { type := .str "Edm.String", isArray := false })
    ∧ getTypeReference 5 mdXFoo optsExFoo {}
        { type := .named { qname := "NS.Foo", name := "Foo" } }
      = .ok ({}, some { type := .str "Foo", isArray := false }) := by
  constructor
  · exact excluded_type_bare_name_reference.1 4 mdXFoo optsExFoo {} _ "Edm.String" rfl
  · exact excluded_type_bare_name_reference.2.1 4 mdXFoo optsExFoo {} _
      { qname := "NS.Foo", name := "Foo" } rfl (by decide) (by decide)

/-! ## Rendering claims -/

theorem substrFrom1_I_append (s : String) : substrFrom1 ("I" ++ s) = s := by
  show String.mk (("I" ++ s).data.drop 1) = s
  have hd : ("I" ++ s).data = 'I' :: s.data := rfl
  rw [hd]
  rfl

theorem apiContextLoop_name (fuel : Nat) (md : ApiMetadata) (options : GeneratorOptions) :
    ∀ (items : List (String × TypeNameRef × Bool)) (m : Model) (d : InterfaceDeclaration)
      (m2 : Model) (d2 : InterfaceDeclaration),
      apiContextLoop fuel md options items m d = .ok (m2, d2) → d2.name = d.name := by
  intro items
  induction items with
  | nil =>
    intro m d m2 d2 h
    simp [apiContextLoop] at h
    rw [← h.2]
  | cons it rest ih =>
    intro m d m2 d2 h
    rw [apiContextLoop] at h
    cases h1 : getTypeReference fuel md options m
        { type := .named it.2.1, nullable := false, collection := it.2.2 } with
    | error e => rw [h1] at h; simp [Bind.bind, Except.bind] at h
    | ok pair =>
      obtain ⟨m1, trOpt⟩ := pair
      rw [h1] at h
      simp only [Bind.bind, Except.bind] at h
      cases trOpt with
      | none => exact ih m1 d m2 d2 h
      | some tr =>
        simp only at h
        by_cases hc : (isIncludeObject (joinNonEmptyDot [md.containerName, it.1]) options
            || ((match tr.type with | .declKey _ => true | .str _ => false)
                && !(isExclude (joinNonEmptyDot [md.containerName, it.1]) options))) = true
        · rw [if_pos hc] at h
          have := ih m1 _ m2 d2 h
          rw [this]
        · rw [if_neg hc] at h
          exact ih m1 d m2 d2 h

theorem generateApiContext_name (fuel : Nat) (m : Model) (md : ApiMetadata)
    (options : GeneratorOptions) (m2 : Model) (d : InterfaceDeclaration)
    (h : generateApiContext fuel m md options = .ok (m2, d)) :
    d.name = jsOrOptStr options.apiContextName (jsOrStr md.containerName "Odata" ++ "Context") := by
  unfold generateApiContext at h
  exact apiContextLoop_name fuel md options _ _ _ _ _ h

/-- Claim C9: at render time only, a context name not starting with `I` is
mutated in place to `I` plus the old name and the exported alias is emitted
under the old name; a name already starting with `I` is kept and the alias
name is the interface name minus its first character (`Index` yields alias
`ndex`); during construction `generateApiContext` names the context purely
from the options and container name, performing no renaming. -/
theorem apiContext_rename_at_render :
    (∀ (m : Model) (ctx : InterfaceDeclaration),
        m.contextDeclaration = some ctx → firstCharIs ctx.name 'I' = false →
        (Model.toNodeArray m).1.contextDeclaration = some { ctx with name := "I" ++ ctx.name }
        ∧ (Model.toNodeArray m).2 =
            [.importsChunk (String.intercalate ";" m.imports),
             .typeAlias ctx.name ("I" ++ ctx.name),
             .decl (.interfaceDecl { ctx with name := "I" ++ ctx.name })]
            ++ m.typeDeclarations.map Node.decl)
    ∧ (∀ (m : Model) (ctx : InterfaceDeclaration),
        m.contextDeclaration = some ctx → firstCharIs ctx.name 'I' = true →
        (Model.toNodeArray m).1.contextDeclaration = some ctx
        ∧ (Model.toNodeArray m).2 =
            [.importsChunk (String.intercalate ";" m.imports),
             .typeAlias (substrFrom1 ctx.name) ctx.name,
             .decl (.interfaceDecl ctx)]
            ++ m.typeDeclarations.map Node.decl)
    ∧ ((Model.toNodeArray
          { contextDeclaration := some { name := "Index", baseClass := "B" } }).2
        = [.importsChunk "", .typeAlias "ndex" "Index",
           .decl (.interfaceDecl { name := "Index", baseClass := "B" })])
    ∧ (∀ (fuel : Nat) (m : Model) (md : ApiMetadata) (options : GeneratorOptions)
        (m2 : Model) (d : InterfaceDeclaration),
        generateApiContext fuel m md options = .ok (m2, d) →
        d.name = jsOrOptStr options.apiContextName
          (jsOrStr md.containerName "Odata" ++ "Context")) := by
  refine ⟨?_, ?_, by rfl, ?_⟩
  · intro m ctx hctx hI
    unfold Model.toNodeArray
    rw [hctx]
    simp only [hI, Bool.false_eq_true, if_false]
    constructor
    · first
        | rfl
        | trivial
    · simp only [Model.createApiContextAlias, Model.typeDeclarations]
      rw [substrFrom1_I_append]
      rfl
  · intro m ctx hctx hI
    unfold Model.toNodeArray
    rw [hctx]
    simp only [hI, if_true]
    constructor
    · first
        | rfl
        | trivial
    · rfl
  · exact fun fuel m md options m2 d h => generateApiContext_name fuel m md options m2 d h

/-- Witness for claim C9 at concrete inputs: `ContContext` is renamed to
`IContContext` at render time with the alias under the old name, and
construction itself yields the unrenamed `ContContext`. -/
theorem apiContext_rename_at_render_witness :
    ((Model.toNodeArray
        { contextDeclaration := some { name := "ContContext", baseClass := "IApiContextBase" } }).1.contextDeclaration
      = some { name := "IContContext", baseClass := "IApiContextBase" })
    ∧ (∃ m2 d, generateApiContext 5 {} { containerName := "Cont" } {} = .ok (m2, d)
        ∧ d.name = "ContContext") := by
  constructor
  · exact (apiContext_rename_at_render.1
      { contextDeclaration := some { name := "ContContext", baseClass := "IApiContextBase" } }
      { name := "ContContext", baseClass := "IApiContextBase" } rfl (by decide)).1
  · refine ⟨_, _, rfl, ?_⟩
    exact apiContext_rename_at_render.2.2.2 5 {} { containerName := "Cont" } {} _ _ rfl

/-- Claim C10: a type reference to the primitive `Edm.Single` renders as the
target-language type `boolean` (not `number`), and the rest of the built-in
primitive table maps `Decimal`, `Double`, `Int16`, `Int32` to `number`,
`Guid` and `String` to `string`, and `Date`, `DateTimeOffset`, `TimeOfDay`
to `Date`; every property, parameter, or return reference produced for
`Edm.Single` renders with base name `boolean`. -/
theorem edm_single_renders_boolean :
    (∀ (m : Model) (coll : Bool),
      (TypeReference.toTypeNode m { type := .str "Edm.Single", isArray := coll }).baseName
        = "boolean")
    ∧ (∀ (fuel : Nat) (md : ApiMetadata) (options : GeneratorOptions) (m : Model)
        (r : EdmTypeRefData),
        r.type = .prim "Edm.Single" →
        ∃ tr, getTypeReference (fuel + 1) md options m r = .ok (m, some tr)
          ∧ (TypeReference.toTypeNode m tr).baseName = "boolean")
    ∧ edmTypeMap "Edm.Single" = some "boolean"
    ∧ edmTypeMap "Edm.Decimal" = some "number" ∧ edmTypeMap "Edm.Double" = some "number"
    ∧ edmTypeMap "Edm.Int16" = some "number" ∧ edmTypeMap "Edm.Int32" = some "number"
    ∧ edmTypeMap "Edm.Guid" = some "string" ∧ edmTypeMap "Edm.String" = some "string"
    ∧ edmTypeMap "Edm.Date" = some "Date" ∧ edmTypeMap "Edm.DateTimeOffset" = some "Date"
    ∧ edmTypeMap "Edm.TimeOfDay" = some "Date"
    ∧ edmTypeMap "Edm.Boolean" = some "boolean" := by
  refine ⟨?_, ?_, rfl, rfl, rfl, rfl, rfl, rfl, rfl, rfl, rfl, rfl, rfl⟩
  · intro m coll
    cases coll <;> rfl
  · intro fuel md options m r hr
    refine ⟨_, getTypeReference_prim fuel md options m r _ hr, ?_⟩
    cases hc : r.collection <;> rfl

/-- Witness for claim C10 at a concrete input: an `Edm.Single` reference
resolved through the generator renders as `boolean`. -/
theorem edm_single_renders_boolean_witness :
    ∃ tr, getTypeReference 5 mdAB {} {} { type := .prim "Edm.Single" } = .ok ({}, some tr)
      ∧ (TypeReference.toTypeNode {} tr).baseName = "boolean" :=
  edm_single_renders_boolean.2.1 4 mdAB {} {} { type := .prim "Edm.Single" } rfl

end PailingualGen
